import Mathlib

/-!
# Verification of the concurrent collect-the-items game server

This file gives a shallow embedding, in Lean 4, of the game-logic core of the
Go server (the most complete, delta-protocol iteration of the program): the
world state, the mutation operations (`initializeItems`, `addPlayer`,
`removePlayer`, `handlePlayerMove`), the pending change record (`DeltaPayload`)
and the broadcast flush (`broadcastUpdates`).

Go maps are modelled as association lists (`List (String × α)`) with
first-match lookup; quantifying over arbitrary association lists also
quantifies over all map-enumeration orders, which Go leaves unspecified.
The random position draws of `rand.Intn` are modelled by an explicit list of
candidate points (each in `[0, BoardWidth) × [0, BoardHeight)`, which is what
`rand.Intn` guarantees); the retry loops take the first acceptable candidate
and return `none` when the supplied draws are exhausted (modelling the
unbounded-retry risk).  Closing a player's mailbox is modelled by
`removePlayer` returning the deactivated player record.
-/

namespace JogoGo

/-- Board width, the Go constant `BoardWidth = 20`. -/
def BoardWidth : Int := 20

/-- Board height, the Go constant `BoardHeight = 15`. -/
def BoardHeight : Int := 15

/-- Number of collectibles placed at initialization, the Go constant `NumItems = 15`. -/
def NumItems : Nat := 15

/-- `Point`: an integer grid coordinate, the Go struct `Point{X, Y int}`. -/
structure Point where
  x : Int
  y : Int
deriving DecidableEq, Repr

/-- A point lies on the board: `0 ≤ x < BoardWidth ∧ 0 ≤ y < BoardHeight`. -/
def onBoard (p : Point) : Prop :=
  0 ≤ p.x ∧ p.x < BoardWidth ∧ 0 ≤ p.y ∧ p.y < BoardHeight

instance (p : Point) : Decidable (onBoard p) := by
  unfold onBoard; infer_instance

/-- `Player`: the Go struct `Player` (the `conn` and `sendChan` handles carry no
game-state information and are not part of the embedding; mailbox closure is
modelled at the `removePlayer` call site). -/
structure Player where
  ID : String
  Pos : Point
  Score : Int
  IsActive : Bool
deriving DecidableEq, Repr

/-- `Item`: the Go struct `Item` (a collectible). -/
structure Item where
  ID : String
  Pos : Point
deriving DecidableEq, Repr

/-- One entry of the `playersUpdated` part of a delta: the Go struct
`PlayerDelta` with its two optional fields. -/
structure PlayerDelta where
  ID : String
  Pos : Option Point
  Score : Option Int
deriving DecidableEq, Repr

/-- The Go struct `GameStatusDelta`. -/
structure GameStatusDelta where
  GameOver : Bool
  WinnerID : String
deriving DecidableEq, Repr

/-- The pending change record, the Go struct `DeltaPayload`. -/
structure DeltaPayload where
  PlayersUpdated : List (String × PlayerDelta)
  PlayersRemoved : List String
  ItemsAdded : List Item
  ItemsRemoved : List String
  GameStatus : Option GameStatusDelta
deriving DecidableEq, Repr

/-- The world state, the Go struct `GameState`.  The board dimensions are the
process-lifetime constants `BoardWidth`/`BoardHeight` (every use in the Go
game logic refers to the constants). -/
structure GameState where
  Players : List (String × Player)
  Items : List (String × Item)
  GameOver : Bool
  WinnerID : String
  pendingDeltas : DeltaPayload
deriving DecidableEq, Repr

/-! ## Association-list operations modelling Go maps -/

/-- Go map read `m[k]` (first matching key). -/
def lookupA {α : Type} (k : String) : List (String × α) → Option α
  | [] => none
  | (k', v) :: t => if k' = k then some v else lookupA k t

/-- Go map write `m[k] = v`: replace the binding of `k` if present, else add it. -/
def insertA {α : Type} (k : String) (v : α) : List (String × α) → List (String × α)
  | [] => [(k, v)]
  | (k', v') :: t => if k' = k then (k, v) :: t else (k', v') :: insertA k v t

/-- Go map delete `delete(m, k)`: drop every binding of `k`. -/
def eraseA {α : Type} (k : String) (l : List (String × α)) : List (String × α) :=
  l.filter (fun e => e.1 ≠ k)

/-- Number of bindings of key `k` (a well-formed map has at most one). -/
def countKey {α : Type} (k : String) (l : List (String × α)) : Nat :=
  (l.filter (fun e => e.1 = k)).length

/-! ## The position key

Go indexes the collectible map by the string `fmt.Sprintf("%d,%d", x, y)`. -/

/-- The collectible-map key of a position: the decimal rendering
`"x,y"` produced by `fmt.Sprintf("%d,%d", pos.X, pos.Y)`. -/
def posKey (p : Point) : String :=
  toString p.x ++ "," ++ toString p.y

/-! ## The mutation operations -/

/-- `resetPendingDeltas`: install a fresh empty change record. -/
def emptyDeltas : DeltaPayload :=
  { PlayersUpdated := [], PlayersRemoved := [], ItemsAdded := [],
    ItemsRemoved := [], GameStatus := none }

/-- The Go method `resetPendingDeltas`. -/
def resetPendingDeltas (gs : GameState) : GameState :=
  { gs with pendingDeltas := emptyDeltas }

/-- The acceptance check of the placement loop in `initializeItems`: the
candidate position must not already hold one of this batch's items and no
player (the loop ranges over the whole player map) may stand on it. -/
def itemFreeOk (players : List (String × Player)) (cur : List (String × Item))
    (c : Point) : Bool :=
  (lookupA (posKey c) cur).isNone &&
    !(players.any (fun q => q.2.Pos.x == c.x && q.2.Pos.y == c.y))

/-- The retry loop `for !uniquePos { ... }`: take candidates (random draws)
until one passes `ok`; `none` when the supplied draws run out. -/
def pickFree (ok : Point → Bool) : List Point → Option (Point × List Point)
  | [] => none
  | c :: rest => if ok c then some (c, rest) else pickFree ok rest

/-- The item-placement loop of `initializeItems`: place `n` items (ids
`"item_" ++ i`, `i` counting up), each at the first acceptable candidate,
accumulating the new map and the `ItemsAdded` list. -/
def placeItemsAux (players : List (String × Player)) :
    Nat → Nat → List Point → List (String × Item) → List Item →
    Option (List (String × Item) × List Item)
  | 0, _, _, cur, acc => some (cur, acc)
  | n + 1, i, cands, cur, acc =>
    match pickFree (itemFreeOk players cur) cands with
    | none => none
    | some (pos, rest) =>
      let itm : Item := { ID := "item_" ++ toString i, Pos := pos }
      placeItemsAux players n (i + 1) rest
        (insertA (posKey pos) itm cur) (acc ++ [itm])

/-- The body of the score-reset loop of `initializeItems`: zero every active
player's score and record a score-0 entry in `PlayersUpdated` for it
(looking up the existing entry first, as the Go code does). -/
def resetScores : List (String × Player) → List (String × PlayerDelta) →
    List (String × Player) × List (String × PlayerDelta)
  | [], pu => ([], pu)
  | (pid, p) :: t, pu =>
    if p.IsActive then
      let d := match lookupA pid pu with
               | some d => d
               | none => { ID := pid, Pos := none, Score := none }
      let r := resetScores t (insertA pid { d with Score := some 0 } pu)
      ((pid, { p with Score := 0 }) :: r.1, r.2)
    else
      let r := resetScores t pu
      ((pid, p) :: r.1, r.2)

/-- The Go method `initializeItems` (also the Reset operation): reset the
change record, place `NumItems` collectibles avoiding batch duplicates and
player positions, replace the collectible map, clear game-over/winner, record
a game-status-cleared delta, and zero every active player's score (recording
score deltas).  `cands` is the stream of random draws; `none` models
exhausting it. -/
def initializeItems (gs : GameState) (cands : List Point) : Option GameState :=
  let gs1 := resetPendingDeltas gs
  match placeItemsAux gs1.Players NumItems 0 cands [] [] with
  | none => none
  | some (cur, lst) =>
    let gs2 := { gs1 with Items := cur,
                          pendingDeltas := { gs1.pendingDeltas with ItemsAdded := lst } }
    let gs3 := { gs2 with GameOver := false, WinnerID := "" }
    -- the Go code's two-step GameStatus initialization; the first `if` tests
    -- the already-cleared flags, the second unconditionally installs
    -- GameOver=false, WinnerID=""
    let gs4 :=
      if gs3.pendingDeltas.GameStatus = none ∧ (gs3.GameOver = true ∨ gs3.WinnerID ≠ "")
      then { gs3 with pendingDeltas := { gs3.pendingDeltas with
              GameStatus := some { GameOver := false, WinnerID := "" } } }
      else gs3
    let gs5 := { gs4 with pendingDeltas := { gs4.pendingDeltas with
                  GameStatus := some { GameOver := false, WinnerID := "" } } }
    let r := resetScores gs5.Players gs5.pendingDeltas.PlayersUpdated
    some { gs5 with Players := r.1,
                    pendingDeltas := { gs5.pendingDeltas with PlayersUpdated := r.2 } }

/-- The spawn acceptance check of `addPlayer`: no player on the candidate's
coordinates and no item under the candidate's key. -/
def spawnOk (gs : GameState) (c : Point) : Bool :=
  !(gs.Players.any (fun q => q.2.Pos.x == c.x && q.2.Pos.y == c.y)) &&
    (lookupA (posKey c) gs.Items).isNone

/-- The Go method `addPlayer`: pick a free spawn position from the random
draws, create the player (score 0, active, fresh mailbox), insert it, and
record an entity-update delta (initial position and score) for the other
observers.  Returns the new state and the created player. -/
def addPlayer (gs : GameState) (id : String) (cands : List Point) :
    Option (GameState × Player) :=
  match pickFree (spawnOk gs) cands with
  | none => none
  | some (startPos, _) =>
    let player : Player := { ID := id, Pos := startPos, Score := 0, IsActive := true }
    some ({ gs with
             Players := insertA id player gs.Players,
             pendingDeltas := { gs.pendingDeltas with
               PlayersUpdated := insertA id
                 { ID := id, Pos := some startPos, Score := some 0 }
                 gs.pendingDeltas.PlayersUpdated } },
          player)

/-- The Go method `removePlayer`: a no-op when `id` is unknown; otherwise mark
the player inactive, close its mailbox (both modelled by the returned
deactivated record — `close(player.sendChan)` terminates its delivery task),
delete it from the player map, append an entity-removal delta, and discard any
pending entity-update delta for this id. -/
def removePlayer (gs : GameState) (id : String) : GameState × Option Player :=
  match lookupA id gs.Players with
  | none => (gs, none)
  | some p =>
    ({ gs with
        Players := eraseA id gs.Players,
        pendingDeltas := { gs.pendingDeltas with
          PlayersRemoved := gs.pendingDeltas.PlayersRemoved ++ [id],
          PlayersUpdated := eraseA id gs.pendingDeltas.PlayersUpdated } },
     some { p with IsActive := false })

/-- The direction `switch` of `handlePlayerMove`: the single-step translation
clamped at the board edges; `none` for a direction outside
up/down/left/right (the `default: return` branch). -/
def stepPos (p : Point) (direction : String) : Option Point :=
  if direction = "up" then some (if p.y > 0 then { p with y := p.y - 1 } else p)
  else if direction = "down" then
    some (if p.y < BoardHeight - 1 then { p with y := p.y + 1 } else p)
  else if direction = "left" then
    some (if p.x > 0 then { p with x := p.x - 1 } else p)
  else if direction = "right" then
    some (if p.x < BoardWidth - 1 then { p with x := p.x + 1 } else p)
  else none

/-- The winner loop of `handlePlayerMove`: fold over the players (in map
order) keeping the best score seen (`winnerScore`, starting at `-1`) and the
ids achieving it: a strictly greater score resets the list, an equal score
appends. -/
def winnersLoop : List Player → Int → List String → Int × List String
  | [], ws, acc => (ws, acc)
  | p :: t, ws, acc =>
    if p.IsActive then
      if p.Score > ws then winnersLoop t p.Score [p.ID]
      else if p.Score = ws then winnersLoop t ws (acc ++ [p.ID])
      else winnersLoop t ws acc
    else winnersLoop t ws acc

/-- The winner list computed at game over. -/
def computeWinners (players : List (String × Player)) : List String :=
  (winnersLoop (players.map Prod.snd) (-1) []).2

/-- `fmt.Sprintf("%v", winners)` on a Go string slice: `"[a b c]"`. -/
def formatWinners (l : List String) : String :=
  "[" ++ String.intercalate " " l ++ "]"

/-- The `playerMoved` block of `handlePlayerMove`: install the moved player
and record the position change in its (looked-up or fresh) pending entry. -/
def applyMovedUpdate (gs : GameState) (playerID : String) (player1 : Player)
    (newPos : Point) : GameState :=
  let d := match lookupA playerID gs.pendingDeltas.PlayersUpdated with
           | some d => d
           | none => { ID := playerID, Pos := none, Score := none }
  { gs with
     Players := insertA playerID player1 gs.Players,
     pendingDeltas := { gs.pendingDeltas with
       PlayersUpdated := insertA playerID { d with Pos := some newPos }
         gs.pendingDeltas.PlayersUpdated } }

/-- The `len(gs.Items) == 0` block of `handlePlayerMove`: set game-over,
compute the winners (recording `WinnerID` only when some winner exists) and
record the game-status delta. -/
def gameOverPhase (gs : GameState) : GameState :=
  let gsD := { gs with GameOver := true }
  let winners := computeWinners gsD.Players
  let gsE := if winners.length > 0
             then { gsD with WinnerID := formatWinners winners }
             else gsD
  { gsE with pendingDeltas := { gsE.pendingDeltas with
      GameStatus := some { GameOver := true, WinnerID := gsE.WinnerID } } }

/-- The state after a collectible hit in `handlePlayerMove`, before the
emptiness check: score incremented, collectible deleted, score and
collectible-removal deltas recorded. -/
def collectedState (gs : GameState) (playerID : String) (player1 : Player)
    (newPos : Point) : GameState :=
  let itemKey := posKey newPos
  let player2 := { player1 with Score := player1.Score + 1 }
  let gsB := { gs with
                Players := insertA playerID player2 gs.Players,
                Items := eraseA itemKey gs.Items }
  let d := match lookupA playerID gsB.pendingDeltas.PlayersUpdated with
           | some d => d
           | none => { ID := playerID, Pos := none, Score := none }
  { gsB with pendingDeltas := { gsB.pendingDeltas with
      PlayersUpdated := insertA playerID
        { d with Score := some player2.Score }
        gsB.pendingDeltas.PlayersUpdated,
      ItemsRemoved := gsB.pendingDeltas.ItemsRemoved ++ [itemKey] } }

/-- The collectible check of `handlePlayerMove`: on a hit, increment the
mover's score, delete the collectible, record the score and
collectible-removal deltas (`collectedState`), and enter the game-over block
when the collectible map became empty. -/
def collectPhase (gs : GameState) (playerID : String) (player1 : Player)
    (newPos : Point) : GameState :=
  match lookupA (posKey newPos) gs.Items with
  | none => gs
  | some _ =>
    let gsC := collectedState gs playerID player1 newPos
    if gsC.Items.length == 0 then gameOverPhase gsC else gsC

/-- The Go method `handlePlayerMove` (the `ApplyMove` operation): a no-op when
the game is over, the id is unknown or inactive, or the direction is invalid;
otherwise step the position (clamped), record a position delta if the position
actually changed, then check the (possibly unchanged) square for a
collectible (`collectPhase`). -/
def handlePlayerMove (gs : GameState) (playerID direction : String) : GameState :=
  if gs.GameOver then gs else
  match lookupA playerID gs.Players with
  | none => gs
  | some player =>
    if !player.IsActive then gs else
    match stepPos player.Pos direction with
    | none => gs
    | some newPos =>
      let player1 := if player.Pos ≠ newPos then { player with Pos := newPos } else player
      let gsA := if player.Pos ≠ newPos
                 then applyMovedUpdate gs playerID player1 newPos
                 else gs
      collectPhase gsA playerID player1 newPos

/-- The broadcast tick `broadcastUpdates`: when the accumulated record is
entirely empty, send nothing; otherwise swap in a fresh empty record and
enqueue the swapped-out record onto every active player's mailbox (returned
as the list of (recipient, message) enqueue events). -/
def broadcastUpdates (gs : GameState) : GameState × List (String × DeltaPayload) :=
  if gs.pendingDeltas.PlayersUpdated.length = 0 ∧
     gs.pendingDeltas.PlayersRemoved.length = 0 ∧
     gs.pendingDeltas.ItemsAdded.length = 0 ∧
     gs.pendingDeltas.ItemsRemoved.length = 0 ∧
     gs.pendingDeltas.GameStatus = none
  then (gs, [])
  else
    let deltasToSend := gs.pendingDeltas
    let gs1 := resetPendingDeltas gs
    (gs1, (gs1.Players.filter (fun q => q.2.IsActive)).map
            (fun q => (q.1, deltasToSend)))

/-- The state installed by `gameLoop` before the first `initializeItems`:
empty player and item maps, a fresh change record. -/
def initialState : GameState :=
  { Players := [], Items := [], GameOver := false, WinnerID := "",
    pendingDeltas := emptyDeltas }

/-- The reachable world states: the state produced by the first
`initializeItems` from `gameLoop`'s empty maps, closed under `addPlayer`
(with in-board random draws, honoring `rand.Intn`'s range), `removePlayer`,
`handlePlayerMove`, the reset path (`reset_game_request`, honored while
game-over), and the broadcast tick. -/
inductive Reachable : GameState → Prop where
  | init (cands : List Point) (gs' : GameState)
      (hc : ∀ c ∈ cands, onBoard c)
      (h : initializeItems initialState cands = some gs') : Reachable gs'
  | add (gs : GameState) (id : String) (cands : List Point) (gs' : GameState)
      (p : Player) (hr : Reachable gs) (hc : ∀ c ∈ cands, onBoard c)
      (h : addPlayer gs id cands = some (gs', p)) : Reachable gs'
  | remove (gs : GameState) (id : String) (hr : Reachable gs) :
      Reachable (removePlayer gs id).1
  | move (gs : GameState) (id dir : String) (hr : Reachable gs) :
      Reachable (handlePlayerMove gs id dir)
  | reset (gs : GameState) (cands : List Point) (gs' : GameState)
      (hr : Reachable gs) (hg : gs.GameOver = true)
      (hc : ∀ c ∈ cands, onBoard c)
      (h : initializeItems gs cands = some gs') : Reachable gs'
  | tick (gs : GameState) (hr : Reachable gs) :
      Reachable (broadcastUpdates gs).1

/-! ## Auxiliary definitions used by the proofs and claims -/

/-- `c` is a decimal digit character. -/
def isDig (c : Char) : Bool := 48 ≤ c.toNat && c.toNat ≤ 57

/-- Decimal value of a digit string, most significant first. -/
def valAux (acc : Nat) : List Char → Nat
  | [] => acc
  | c :: t => valAux (acc * 10 + (c.toNat - 48)) t

/-- The evolution of `winnerScore` through the winner loop. -/
def maxSc : List Player → Int → Int
  | [], w => w
  | p :: t, w => maxSc t (if p.IsActive = true ∧ w < p.Score then p.Score else w)

/-- The score-reset projection applied to a player entry by `initializeItems`. -/
def resetEntry (e : String × Player) : String × Player :=
  if e.2.IsActive = true then (e.1, { e.2 with Score := 0 }) else e

/-- A sequence of `ApplyMove` operations (any movers, any directions). -/
def applyMoves (gs : GameState) (moves : List (String × String)) : GameState :=
  moves.foldl (fun g m => handlePlayerMove g m.1 m.2) gs

/-- A sequence of `ApplyMove` operations by one entity. -/
def applyMovesFor (gs : GameState) (pid : String) : List String → GameState
  | [] => gs
  | d :: ds => applyMovesFor (handlePlayerMove gs pid d) pid ds

/-- The changes one `handlePlayerMove` call records in the mover's pending
entry, read off the pre-state: the new position when the position actually
changes, and the new score when the destination square holds a collectible. -/
def recordOf (gs : GameState) (pid dir : String) : Option Point × Option Int :=
  if gs.GameOver then (none, none) else
  match lookupA pid gs.Players with
  | none => (none, none)
  | some player =>
    if !player.IsActive then (none, none) else
    match stepPos player.Pos dir with
    | none => (none, none)
    | some newPos =>
      ((if player.Pos ≠ newPos then some newPos else none),
       (if (lookupA (posKey newPos) gs.Items).isSome
        then some (player.Score + 1) else none))

/-- The per-move records of a sequence of moves by one entity. -/
def recordsOf (gs : GameState) (pid : String) : List String →
    List (Option Point × Option Int)
  | [] => []
  | d :: ds => recordOf gs pid d :: recordsOf (handlePlayerMove gs pid d) pid ds

/-- Modelled from the spec: "per-entity position/score updates
(last-write-wins per entity per field within the window)" — a field keeps its
old value unless the new record carries one. -/
def lwwField {α : Type} (old new : Option α) : Option α :=
  match new with
  | some v => some v
  | none => old

/-- Modelled from the spec: fold one move's recorded changes into the
pending entry, last-write-wins per field; a move that records nothing leaves
the entry untouched (no entry is created). -/
def specLWW (pid : String) (old : Option PlayerDelta)
    (rec : Option Point × Option Int) : Option PlayerDelta :=
  match rec with
  | (none, none) => old
  | (pr, sr) =>
    let d := match old with
             | some d => d
             | none => { ID := pid, Pos := none, Score := none }
    some { ID := d.ID, Pos := lwwField d.Pos pr, Score := lwwField d.Score sr }

/-- Modelled from the spec: the pending entry that a sequence of recorded
changes should coalesce to, last-write-wins per field. -/
def specLWWList (pid : String) (old : Option PlayerDelta) :
    List (Option Point × Option Int) → Option PlayerDelta
  | [] => old
  | r :: rs => specLWWList pid (specLWW pid old r) rs

/-! ## Concrete fixtures used by the witnesses -/

/-- Random draws for an initial `initializeItems` run: `(0,1) … (14,1)`. -/
def candsInit : List Point := (List.range NumItems).map (fun i => { x := Int.ofNat i, y := 1 })

/-- A state produced by the first `initializeItems` (15 items on row 1). -/
def gsInit : GameState := (initializeItems initialState candsInit).getD initialState

/-- One spawn draw at the origin (free in `gsInit`). -/
def spawnCands : List Point := [{ x := 0, y := 0 }]

/-- Result of `addPlayer` on `gsInit` with the origin draw. -/
def addedPair : GameState × Player :=
  (addPlayer gsInit "p1" spawnCands).getD
    (gsInit, { ID := "p1", Pos := { x := 0, y := 0 }, Score := 0, IsActive := true })

/-- A small hand-built state: one active player `p1` at `(1,1)`, one
collectible at `(2,1)`, game running, empty change record. -/
def pA : Player := { ID := "p1", Pos := { x := 1, y := 1 }, Score := 0, IsActive := true }

def gA : GameState :=
  { Players := [("p1", pA)],
    Items := [("2,1", { ID := "item_0", Pos := { x := 2, y := 1 } })],
    GameOver := false, WinnerID := "", pendingDeltas := emptyDeltas }

/-- A hand-built state with the active player `p1` at the corner `(0,0)` and
a collectible elsewhere. -/
def pC : Player := { ID := "p1", Pos := { x := 0, y := 0 }, Score := 0, IsActive := true }

def gC : GameState :=
  { Players := [("p1", pC)],
    Items := [("2,1", { ID := "item_0", Pos := { x := 2, y := 1 } })],
    GameOver := false, WinnerID := "", pendingDeltas := emptyDeltas }

/-- A state violating the reachable-state invariant: the active player stands
at the corner `(0,0)` on top of a collectible. -/
def gBad : GameState :=
  { Players := [("p1", { ID := "p1", Pos := { x := 0, y := 0 }, Score := 0, IsActive := true })],
    Items := [("0,0", { ID := "item_0", Pos := { x := 0, y := 0 } })],
    GameOver := false, WinnerID := "", pendingDeltas := emptyDeltas }

/-- The well-formedness invariant of reachable world states: the game-over
flag tracks collectible emptiness, all player positions are on the board,
collectible-map keys are the position keys of their items, no collectible
shares a position with a live player, and all scores are nonnegative. -/
structure WF (gs : GameState) : Prop where
  c1 : gs.GameOver = true ↔ gs.Items = []
  inb : ∀ e ∈ gs.Players, onBoard e.2.Pos
  keyPos : ∀ e ∈ gs.Items, e.1 = posKey e.2.Pos
  noOver : ∀ e ∈ gs.Items, ∀ q ∈ gs.Players, q.2.IsActive = true → e.2.Pos ≠ q.2.Pos
  nonneg : ∀ q ∈ gs.Players, 0 ≤ q.2.Score

/-! ## Injectivity of the position key

The collectible map is keyed by the decimal string `"x,y"`; the game logic
checks position coincidence sometimes by coordinates and sometimes by key, so
the key encoding being injective is load-bearing.  We prove it by a value
round-trip through `Nat.toDigitsCore`. -/


lemma digitChar_isDig : ∀ m, m < 10 → isDig (Nat.digitChar m) = true := by decide

lemma toDigitsCore_mem (f : Nat) : ∀ (n : Nat) (l : List Char) (c : Char),
    c ∈ Nat.toDigitsCore 10 f n l → c ∈ l ∨ isDig c = true := by
  induction f with
  | zero => intro n l c h; exact Or.inl h
  | succ f ih =>
    intro n l c h
    rw [Nat.toDigitsCore] at h
    by_cases hnb : n / 10 = 0
    · rw [if_pos hnb] at h
      rcases List.mem_cons.mp h with h | h
      · exact Or.inr (h ▸ digitChar_isDig _ (Nat.mod_lt n (by norm_num)))
      · exact Or.inl h
    · rw [if_neg hnb] at h
      rcases ih _ _ _ h with h | h
      · rcases List.mem_cons.mp h with h | h
        · exact Or.inr (h ▸ digitChar_isDig _ (Nat.mod_lt n (by norm_num)))
        · exact Or.inl h
      · exact Or.inr h


lemma digitChar_val : ∀ m, m < 10 → (Nat.digitChar m).toNat - 48 = m := by decide

lemma valAux_toDigitsCore (f : Nat) : ∀ n, n < f → ∀ (acc : Nat) (l : List Char),
    ∃ k, valAux acc (Nat.toDigitsCore 10 f n l) = valAux (acc * 10 ^ k + n) l := by
  induction f with
  | zero => intro n h; omega
  | succ f ih =>
    intro n hn acc l
    have hstep : Nat.toDigitsCore 10 (f + 1) n l =
        if n / 10 = 0 then Nat.digitChar (n % 10) :: l
        else Nat.toDigitsCore 10 f (n / 10) (Nat.digitChar (n % 10) :: l) := rfl
    rw [hstep]
    by_cases hnb : n / 10 = 0
    · refine ⟨1, ?_⟩
      rw [if_pos hnb]
      have hlt : n < 10 := by omega
      have hmod : n % 10 = n := Nat.mod_eq_of_lt hlt
      show valAux (acc * 10 + ((Nat.digitChar (n % 10)).toNat - 48)) l
         = valAux (acc * 10 ^ 1 + n) l
      rw [hmod, digitChar_val n hlt, pow_one]
    · have hdiv : n / 10 < f := by
        have h1 : n / 10 < n := Nat.div_lt_self (by omega) (by norm_num)
        omega
      obtain ⟨k, hk⟩ := ih (n / 10) hdiv acc (Nat.digitChar (n % 10) :: l)
      refine ⟨k + 1, ?_⟩
      rw [if_neg hnb, hk]
      show valAux ((acc * 10 ^ k + n / 10) * 10 + ((Nat.digitChar (n % 10)).toNat - 48)) l
         = valAux (acc * 10 ^ (k + 1) + n) l
      rw [digitChar_val (n % 10) (Nat.mod_lt n (by norm_num))]
      congr 1
      have h2 := Nat.div_add_mod n 10
      have h3 : (10 : Nat) ^ (k + 1) = 10 ^ k * 10 := pow_succ 10 k
      nlinarith [h2, h3]

lemma valAux_toDigits (n : Nat) : valAux 0 (Nat.toDigits 10 n) = n := by
  obtain ⟨k, hk⟩ := valAux_toDigitsCore (n + 1) n (Nat.lt_succ_self n) 0 []
  rw [Nat.toDigits, hk]
  show 0 * 10 ^ k + n = n
  rw [Nat.zero_mul, Nat.zero_add]

lemma nat_repr_inj {a b : Nat} (h : Nat.repr a = Nat.repr b) : a = b := by
  have hd : Nat.toDigits 10 a = Nat.toDigits 10 b := by
    have := congrArg String.data h
    simpa [Nat.repr, List.asString] using this
  have := congrArg (valAux 0) hd
  simpa [valAux_toDigits] using this

lemma toDigitsCore_eq_nil (f : Nat) :
    ∀ n l, Nat.toDigitsCore 10 f n l = [] → l = [] := by
  induction f with
  | zero => intro n l h; exact h
  | succ f ih =>
    intro n l h
    rw [Nat.toDigitsCore] at h
    by_cases hnb : n / 10 = 0
    · rw [if_pos hnb] at h; cases h
    · rw [if_neg hnb] at h
      cases ih _ _ h

lemma toDigits_ne_nil (n : Nat) : Nat.toDigits 10 n ≠ [] := by
  intro h
  rw [Nat.toDigits, Nat.toDigitsCore] at h
  by_cases hnb : n / 10 = 0
  · rw [if_pos hnb] at h; cases h
  · rw [if_neg hnb] at h
    cases toDigitsCore_eq_nil _ _ _ h

lemma repr_data_isDig (n : Nat) : ∀ c ∈ (Nat.repr n).data, isDig c = true := by
  intro c hc
  have hmem : c ∈ Nat.toDigits 10 n := by
    simpa [Nat.repr, List.asString] using hc
  rcases toDigitsCore_mem _ _ _ _ hmem with h | h
  · cases h
  · exact h

/-- `toString` on `Int` is `Nat.repr` for nonnegatives and `"-" ++ Nat.repr`
for negatives (the core `ToString Int` instance). -/
lemma int_toString_def (i : Int) :
    toString i = match i with
                 | .ofNat m => Nat.repr m
                 | .negSucc m => "-" ++ Nat.repr (m + 1) := by
  cases i <;> rfl

lemma int_toString_no_comma (i : Int) : ∀ c ∈ (toString i).data, c ≠ ',' := by
  intro c hc
  rw [int_toString_def] at hc
  cases i with
  | ofNat m =>
    intro heq
    have := repr_data_isDig m c hc
    rw [heq] at this
    simp [isDig] at this
  | negSucc m =>
    simp only [String.data_append] at hc
    rcases List.mem_append.mp hc with h | h
    · intro heq
      rw [heq] at h
      simp [String.data] at h
    · intro heq
      have := repr_data_isDig (m + 1) c h
      rw [heq] at this
      simp [isDig] at this

lemma append_comma_inj : ∀ (l1 l1' l2 l2' : List Char),
    (∀ c ∈ l1, c ≠ ',') → (∀ c ∈ l1', c ≠ ',') →
    l1 ++ ',' :: l2 = l1' ++ ',' :: l2' → l1 = l1' ∧ l2 = l2' := by
  intro l1
  induction l1 with
  | nil =>
    intro l1' l2 l2' _ h2 heq
    cases l1' with
    | nil => simpa using heq
    | cons b t' =>
      exfalso
      have hb : b = ',' := by
        have := congrArg List.head? heq
        simpa using this.symm
      exact h2 b (List.mem_cons_self b t') hb
  | cons a t ih =>
    intro l1' l2 l2' h1 h2 heq
    cases l1' with
    | nil =>
      exfalso
      have ha : a = ',' := by
        have := congrArg List.head? heq
        simpa using this
      exact h1 a (List.mem_cons_self a t) ha
    | cons b t' =>
      have hab : a = b := by
        have := congrArg List.head? heq
        simpa using this
      have htl : t ++ ',' :: l2 = t' ++ ',' :: l2' := by
        have := congrArg List.tail heq
        simpa using this
      obtain ⟨he, hl⟩ := ih t' l2 l2'
        (fun c hc => h1 c (List.mem_cons_of_mem a hc))
        (fun c hc => h2 c (List.mem_cons_of_mem b hc)) htl
      exact ⟨by rw [hab, he], hl⟩

lemma repr_head_isDig (n : Nat) (c : Char) (t : List Char)
    (h : (Nat.repr n).data = c :: t) : isDig c = true :=
  repr_data_isDig n c (by rw [h]; exact List.mem_cons_self c t)

lemma int_toString_inj {i j : Int} (h : toString i = toString j) : i = j := by
  rw [int_toString_def, int_toString_def] at h
  cases i with
  | ofNat a =>
    cases j with
    | ofNat b => exact congrArg Int.ofNat (nat_repr_inj h)
    | negSucc b =>
      exfalso
      have hd := congrArg String.data h
      rw [String.data_append] at hd
      rcases hr : (Nat.repr a).data with _ | ⟨c, t⟩
      · exact absurd (by simpa [Nat.repr, List.asString] using hr) (toDigits_ne_nil a)
      · rw [hr] at hd
        have hc : c = '-' := by
          have := congrArg List.head? hd
          simpa [String.data] using this
        have := repr_head_isDig a c t hr
        rw [hc] at this
        simp [isDig] at this
  | negSucc a =>
    cases j with
    | ofNat b =>
      exfalso
      have hd := congrArg String.data h.symm
      rw [String.data_append] at hd
      rcases hr : (Nat.repr b).data with _ | ⟨c, t⟩
      · exact absurd (by simpa [Nat.repr, List.asString] using hr) (toDigits_ne_nil b)
      · rw [hr] at hd
        have hc : c = '-' := by
          have := congrArg List.head? hd
          simpa [String.data] using this
        have := repr_head_isDig b c t hr
        rw [hc] at this
        simp [isDig] at this
    | negSucc b =>
      have hd := congrArg String.data h
      rw [String.data_append, String.data_append] at hd
      have : (Nat.repr (a + 1)).data = (Nat.repr (b + 1)).data := by
        have := congrArg List.tail hd
        simpa [String.data] using this
      have hab : a + 1 = b + 1 := nat_repr_inj (String.ext this)
      exact congrArg Int.negSucc (by omega)

/-- The decimal position key is injective: distinct points get distinct keys. -/
lemma posKey_inj {p q : Point} (h : posKey p = posKey q) : p = q := by
  have hd := congrArg String.data h
  rw [posKey, posKey, String.data_append, String.data_append,
      String.data_append, String.data_append] at hd
  have hcomma : ("," : String).data = [','] := rfl
  rw [hcomma] at hd
  simp only [List.append_assoc, List.singleton_append] at hd
  obtain ⟨h1, h2⟩ := append_comma_inj _ _ _ _
    (int_toString_no_comma p.x) (int_toString_no_comma q.x) hd
  have hx : p.x = q.x := int_toString_inj (String.ext h1)
  have hy : p.y = q.y := int_toString_inj (String.ext h2)
  cases p; cases q
  simp_all

/-! ## Association-list lemmas -/

lemma lookupA_eq_none_iff {α : Type} (k : String) (l : List (String × α)) :
    lookupA k l = none ↔ ∀ e ∈ l, e.1 ≠ k := by
  induction l with
  | nil => simp [lookupA]
  | cons e t ih =>
    obtain ⟨k', v⟩ := e
    by_cases h : k' = k
    · subst h
      simp [lookupA]
    · simp only [lookupA, if_neg h, ih, List.mem_cons]
      constructor
      · rintro hall e' (rfl | he)
        · exact h
        · exact hall e' he
      · intro hall e' he
        exact hall e' (Or.inr he)

lemma lookupA_some_mem {α : Type} {k : String} {l : List (String × α)} {v : α}
    (h : lookupA k l = some v) : (k, v) ∈ l := by
  induction l with
  | nil => cases h
  | cons e t ih =>
    obtain ⟨k', v'⟩ := e
    by_cases hk : k' = k
    · subst hk
      rw [lookupA, if_pos rfl] at h
      cases h
      exact List.mem_cons_self _ _
    · rw [lookupA, if_neg hk] at h
      exact List.mem_cons_of_mem _ (ih h)

lemma mem_insertA {α : Type} {k : String} {v : α} {l : List (String × α)}
    {e : String × α} (h : e ∈ insertA k v l) : e = (k, v) ∨ e ∈ l := by
  induction l with
  | nil => simpa [insertA] using h
  | cons e' t ih =>
    obtain ⟨k', v'⟩ := e'
    by_cases hk : k' = k
    · rw [insertA, if_pos hk] at h
      rcases List.mem_cons.mp h with h | h
      · exact Or.inl h
      · exact Or.inr (List.mem_cons_of_mem _ h)
    · rw [insertA, if_neg hk] at h
      rcases List.mem_cons.mp h with h | h
      · exact Or.inr (h ▸ List.mem_cons_self _ _)
      · rcases ih h with h | h
        · exact Or.inl h
        · exact Or.inr (List.mem_cons_of_mem _ h)

lemma lookupA_insertA_self {α : Type} (k : String) (v : α) (l : List (String × α)) :
    lookupA k (insertA k v l) = some v := by
  induction l with
  | nil => simp [insertA, lookupA]
  | cons e t ih =>
    obtain ⟨k', v'⟩ := e
    by_cases hk : k' = k
    · rw [insertA, if_pos hk, lookupA, if_pos rfl]
    · rw [insertA, if_neg hk, lookupA, if_neg hk]
      exact ih

lemma lookupA_insertA_ne {α : Type} {k k' : String} (v : α) (l : List (String × α))
    (h : k' ≠ k) : lookupA k' (insertA k v l) = lookupA k' l := by
  induction l with
  | nil =>
    show lookupA k' [(k, v)] = lookupA k' []
    have hne : ¬(k = k') := fun he => h he.symm
    simp [lookupA, hne]
  | cons e t ih =>
    obtain ⟨k'', v'⟩ := e
    by_cases hk : k'' = k
    · subst hk
      rw [insertA, if_pos rfl, lookupA, lookupA,
          if_neg (fun he => h he.symm), if_neg (fun he => h he.symm)]
    · rw [insertA, if_neg hk]
      by_cases hk2 : k'' = k'
      · rw [lookupA, if_pos hk2, lookupA, if_pos hk2]
      · rw [lookupA, if_neg hk2, lookupA, if_neg hk2]
        exact ih

lemma mem_eraseA {α : Type} {k : String} {l : List (String × α)} {e : String × α}
    (h : e ∈ eraseA k l) : e ∈ l ∧ e.1 ≠ k := by
  rw [eraseA, List.mem_filter] at h
  exact ⟨h.1, by simpa using h.2⟩

lemma lookupA_eraseA_self {α : Type} (k : String) (l : List (String × α)) :
    lookupA k (eraseA k l) = none := by
  rw [lookupA_eq_none_iff]
  intro e he
  exact (mem_eraseA he).2

lemma lookupA_eraseA_ne {α : Type} {k k' : String} (l : List (String × α))
    (h : k' ≠ k) : lookupA k' (eraseA k l) = lookupA k' l := by
  induction l with
  | nil => rfl
  | cons e t ih =>
    obtain ⟨k'', v⟩ := e
    by_cases hk : k'' = k
    · subst hk
      have : eraseA k'' ((k'', v) :: t) = eraseA k'' t := by
        simp [eraseA]
      rw [this, ih, lookupA, if_neg (fun he => h he.symm)]
    · have : eraseA k ((k'', v) :: t) = (k'', v) :: eraseA k t := by
        simp [eraseA, hk]
      rw [this]
      by_cases hk2 : k'' = k'
      · rw [lookupA, if_pos hk2, lookupA, if_pos hk2]
      · rw [lookupA, if_neg hk2, lookupA, if_neg hk2]
        exact ih

lemma length_insertA_of_none {α : Type} {k : String} (v : α) {l : List (String × α)}
    (h : lookupA k l = none) : (insertA k v l).length = l.length + 1 := by
  induction l with
  | nil => rfl
  | cons e t ih =>
    obtain ⟨k', v'⟩ := e
    by_cases hk : k' = k
    · rw [lookupA, if_pos hk] at h
      cases h
    · rw [lookupA, if_neg hk] at h
      rw [insertA, if_neg hk, List.length_cons, List.length_cons, ih h]

lemma countKey_nil {α : Type} (k : String) : countKey k ([] : List (String × α)) = 0 :=
  rfl

lemma countKey_cons {α : Type} (k k'' : String) (v : α) (t : List (String × α)) :
    countKey k ((k'', v) :: t) = (if k'' = k then 1 else 0) + countKey k t := by
  simp only [countKey, List.filter_cons, decide_eq_true_eq]
  by_cases h : k'' = k
  · rw [if_pos h, if_pos h, List.length_cons]
    omega
  · rw [if_neg h, if_neg h]
    omega

lemma countKey_insertA_self {α : Type} (k : String) (v : α) (l : List (String × α)) :
    countKey k (insertA k v l) = max (countKey k l) 1 := by
  induction l with
  | nil =>
    show countKey k [(k, v)] = max (countKey k []) 1
    rw [countKey_cons, if_pos rfl, countKey_nil]
    omega
  | cons e t ih =>
    obtain ⟨k', v'⟩ := e
    by_cases hk : k' = k
    · subst hk
      rw [insertA, if_pos rfl, countKey_cons, if_pos rfl, countKey_cons, if_pos rfl]
      omega
    · rw [insertA, if_neg hk, countKey_cons, if_neg hk, countKey_cons, if_neg hk, ih]
      omega

lemma countKey_le_one_insertA {α : Type} {k : String} (v : α) {l : List (String × α)}
    (h : countKey k l ≤ 1) : countKey k (insertA k v l) ≤ 1 := by
  rw [countKey_insertA_self]
  omega

lemma countKey_insertA_ne {α : Type} {k k' : String} (v : α) (l : List (String × α))
    (h : k' ≠ k) : countKey k' (insertA k v l) = countKey k' l := by
  induction l with
  | nil =>
    show countKey k' [(k, v)] = countKey k' []
    rw [countKey_cons, if_neg (fun he => h he.symm)]
    omega
  | cons e t ih =>
    obtain ⟨k'', v'⟩ := e
    by_cases hk : k'' = k
    · subst hk
      rw [insertA, if_pos rfl, countKey_cons, countKey_cons]
    · rw [insertA, if_neg hk, countKey_cons, countKey_cons, ih]

/-! ## Characterization of the winner computation -/


lemma le_maxSc : ∀ (l : List Player) (w : Int), w ≤ maxSc l w := by
  intro l
  induction l with
  | nil => intro w; exact le_refl w
  | cons p t ih =>
    intro w
    rw [maxSc]
    by_cases h : p.IsActive = true ∧ w < p.Score
    · rw [if_pos h]
      exact le_of_lt (lt_of_lt_of_le h.2 (ih p.Score))
    · rw [if_neg h]
      exact ih w

lemma score_le_maxSc : ∀ (l : List Player) (w : Int) (p : Player), p ∈ l →
    p.IsActive = true → p.Score ≤ maxSc l w := by
  intro l
  induction l with
  | nil => intro w p hp; cases hp
  | cons q t ih =>
    intro w p hp ha
    rw [maxSc]
    rcases List.mem_cons.mp hp with rfl | hp
    · by_cases h : p.IsActive = true ∧ w < p.Score
      · rw [if_pos h]
        exact le_maxSc t p.Score
      · rw [if_neg h]
        have : ¬ w < p.Score := fun hlt => h ⟨ha, hlt⟩
        exact le_trans (not_lt.mp this) (le_maxSc t w)
    · by_cases h : q.IsActive = true ∧ w < q.Score
      · rw [if_pos h]; exact ih _ p hp ha
      · rw [if_neg h]; exact ih _ p hp ha

lemma maxSc_cases : ∀ (l : List Player) (w : Int),
    maxSc l w = w ∨ ∃ p ∈ l, p.IsActive = true ∧ maxSc l w = p.Score := by
  intro l
  induction l with
  | nil => intro w; exact Or.inl rfl
  | cons q t ih =>
    intro w
    rw [maxSc]
    by_cases h : q.IsActive = true ∧ w < q.Score
    · rw [if_pos h]
      rcases ih q.Score with he | ⟨p, hp, ha, he⟩
      · exact Or.inr ⟨q, List.mem_cons_self q t, h.1, he⟩
      · exact Or.inr ⟨p, List.mem_cons_of_mem q hp, ha, he⟩
    · rw [if_neg h]
      rcases ih w with he | ⟨p, hp, ha, he⟩
      · exact Or.inl he
      · exact Or.inr ⟨p, List.mem_cons_of_mem q hp, ha, he⟩

lemma maxSc_eq_iff : ∀ (l : List Player) (w : Int),
    maxSc l w = w ↔ ∀ p ∈ l, p.IsActive = true → p.Score ≤ w := by
  intro l w
  constructor
  · intro he p hp ha
    exact he ▸ score_le_maxSc l w p hp ha
  · intro hb
    induction l with
    | nil => rfl
    | cons q t ih =>
      rw [maxSc]
      have hq : ¬(q.IsActive = true ∧ w < q.Score) := by
        rintro ⟨ha, hlt⟩
        exact absurd (hb q (List.mem_cons_self q t) ha) (not_le.mpr hlt)
      rw [if_neg hq]
      exact ih (fun p hp ha => hb p (List.mem_cons_of_mem q hp) ha)

/-- Full characterization of the winner loop: an id is in the output exactly
when it was already accumulated and nothing in the remaining list beats the
current best, or some active player in the list carries it with the final
maximal score. -/
lemma winnersLoop_mem : ∀ (l : List Player) (ws : Int) (acc : List String)
    (qid : String),
    qid ∈ (winnersLoop l ws acc).2 ↔
      (qid ∈ acc ∧ ∀ p ∈ l, p.IsActive = true → p.Score ≤ ws) ∨
      (∃ p ∈ l, p.IsActive = true ∧ p.ID = qid ∧ p.Score = maxSc l ws) := by
  intro l
  induction l with
  | nil =>
    intro ws acc qid
    simp [winnersLoop]
  | cons p t ih =>
    intro ws acc qid
    rw [winnersLoop]
    by_cases ha : p.IsActive = true
    · rw [if_pos ha]
      by_cases hgt : p.Score > ws
      · rw [if_pos hgt]
        rw [ih p.Score [p.ID] qid]
        have hm : maxSc (p :: t) ws = maxSc t p.Score := by
          rw [maxSc, if_pos ⟨ha, hgt⟩]
        constructor
        · rintro (⟨hin, hle⟩ | ⟨q, hq, hqa, hqid, hsc⟩)
          · rcases List.mem_singleton.mp hin with rfl
            refine Or.inr ⟨p, List.mem_cons_self p t, ha, rfl, ?_⟩
            rw [hm, (maxSc_eq_iff t p.Score).mpr hle]
          · exact Or.inr ⟨q, List.mem_cons_of_mem p hq, hqa, hqid, hm ▸ hsc⟩
        · rintro (⟨_, hle⟩ | ⟨q, hq, hqa, hqid, hsc⟩)
          · exact absurd (hle p (List.mem_cons_self p t) ha) (not_le.mpr hgt)
          · rcases List.mem_cons.mp hq with rfl | hq
            · by_cases hqt : ∀ r ∈ t, r.IsActive = true → r.Score ≤ q.Score
              · exact Or.inl ⟨by rw [← hqid]; exact List.mem_singleton.mpr rfl, hqt⟩
              · exfalso
                rw [hm] at hsc
                exact hqt (fun r hr hra =>
                  le_of_le_of_eq (score_le_maxSc t q.Score r hr hra) hsc.symm)
            · exact Or.inr ⟨q, hq, hqa, hqid, hm ▸ hsc⟩
      · rw [if_neg hgt]
        have hm : maxSc (p :: t) ws = maxSc t ws := by
          rw [maxSc, if_neg (fun hc => hgt hc.2)]
        by_cases heq : p.Score = ws
        · rw [if_pos heq]
          rw [ih ws (acc ++ [p.ID]) qid]
          constructor
          · rintro (⟨hin, hle⟩ | ⟨q, hq, hqa, hqid, hsc⟩)
            · rcases List.mem_append.mp hin with hin | hin
              · refine Or.inl ⟨hin, ?_⟩
                intro r hr hra
                rcases List.mem_cons.mp hr with rfl | hr
                · exact le_of_eq heq
                · exact hle r hr hra
              · rcases List.mem_singleton.mp hin with rfl
                refine Or.inr ⟨p, List.mem_cons_self p t, ha, rfl, ?_⟩
                rw [hm, (maxSc_eq_iff t ws).mpr hle, heq]
            · exact Or.inr ⟨q, List.mem_cons_of_mem p hq, hqa, hqid, hm ▸ hsc⟩
          · rintro (⟨hin, hle⟩ | ⟨q, hq, hqa, hqid, hsc⟩)
            · exact Or.inl ⟨List.mem_append.mpr (Or.inl hin),
                fun r hr hra => hle r (List.mem_cons_of_mem p hr) hra⟩
            · rcases List.mem_cons.mp hq with rfl | hq
              · rw [hm] at hsc
                have hle : ∀ r ∈ t, r.IsActive = true → r.Score ≤ ws := by
                  intro r hr hra
                  have := score_le_maxSc t ws r hr hra
                  rw [← hsc, heq] at this
                  exact this
                refine Or.inl ⟨List.mem_append.mpr (Or.inr ?_), hle⟩
                rw [← hqid]
                exact List.mem_singleton.mpr rfl
              · exact Or.inr ⟨q, hq, hqa, hqid, hm ▸ hsc⟩
        · rw [if_neg heq]
          rw [ih ws acc qid]
          have hlt : p.Score < ws := lt_of_le_of_ne (not_lt.mp hgt) heq
          constructor
          · rintro (⟨hin, hle⟩ | ⟨q, hq, hqa, hqid, hsc⟩)
            · refine Or.inl ⟨hin, ?_⟩
              intro r hr hra
              rcases List.mem_cons.mp hr with rfl | hr
              · exact le_of_lt hlt
              · exact hle r hr hra
            · exact Or.inr ⟨q, List.mem_cons_of_mem p hq, hqa, hqid, hm ▸ hsc⟩
          · rintro (⟨hin, hle⟩ | ⟨q, hq, hqa, hqid, hsc⟩)
            · exact Or.inl ⟨hin,
                fun r hr hra => hle r (List.mem_cons_of_mem p hr) hra⟩
            · rcases List.mem_cons.mp hq with rfl | hq
              · exfalso
                rw [hm] at hsc
                have := le_maxSc t ws
                omega
              · exact Or.inr ⟨q, hq, hqa, hqid, hm ▸ hsc⟩
    · rw [if_neg ha]
      rw [ih ws acc qid]
      have hm : maxSc (p :: t) ws = maxSc t ws := by
        rw [maxSc, if_neg (fun hc => ha hc.1)]
      constructor
      · rintro (⟨hin, hle⟩ | ⟨q, hq, hqa, hqid, hsc⟩)
        · refine Or.inl ⟨hin, ?_⟩
          intro r hr hra
          rcases List.mem_cons.mp hr with rfl | hr
          · exact absurd hra ha
          · exact hle r hr hra
        · exact Or.inr ⟨q, List.mem_cons_of_mem p hq, hqa, hqid, hm ▸ hsc⟩
      · rintro (⟨hin, hle⟩ | ⟨q, hq, hqa, hqid, hsc⟩)
        · exact Or.inl ⟨hin, fun r hr hra => hle r (List.mem_cons_of_mem p hr) hra⟩
        · rcases List.mem_cons.mp hq with rfl | hq
          · exact absurd hqa ha
          · exact Or.inr ⟨q, hq, hqa, hqid, hm ▸ hsc⟩

/-- The winner list computed at game over contains exactly the ids of the
active players of maximal score, for any enumeration order of the player map
and provided all scores are nonnegative (true in every reachable state). -/
lemma computeWinners_mem (players : List (String × Player))
    (hnn : ∀ q ∈ players, 0 ≤ q.2.Score) (qid : String) :
    qid ∈ computeWinners players ↔
      ∃ q ∈ players, q.2.IsActive = true ∧ q.2.ID = qid ∧
        ∀ r ∈ players, r.2.IsActive = true → r.2.Score ≤ q.2.Score := by
  rw [computeWinners, winnersLoop_mem]
  constructor
  · rintro (⟨hin, _⟩ | ⟨p, hp, hpa, hpid, hsc⟩)
    · cases hin
    · obtain ⟨e, he, hep⟩ := List.mem_map.mp hp
      refine ⟨e, he, by rw [hep]; exact hpa, by rw [hep]; exact hpid, ?_⟩
      intro r hr hra
      have := score_le_maxSc (players.map Prod.snd) (-1) r.2
        (List.mem_map.mpr ⟨r, hr, rfl⟩) hra
      rw [← hsc] at this
      rw [hep]
      exact this
  · rintro ⟨q, hq, hqa, hqid, hdom⟩
    refine Or.inr ⟨q.2, List.mem_map.mpr ⟨q, hq, rfl⟩, hqa, hqid, ?_⟩
    have h1 : q.2.Score ≤ maxSc (players.map Prod.snd) (-1) :=
      score_le_maxSc _ _ _ (List.mem_map.mpr ⟨q, hq, rfl⟩) hqa
    rcases maxSc_cases (players.map Prod.snd) (-1) with he | ⟨p, hp, hpa, he⟩
    · exfalso
      have := hnn q hq
      omega
    · obtain ⟨e, hem, hep⟩ := List.mem_map.mp hp
      have h2 : p.Score ≤ q.2.Score := by
        have := hdom e hem (by rw [hep]; exact hpa)
        rw [hep] at this
        exact this
      omega

/-! ## Facts about the building blocks of the operations -/

lemma stepPos_onBoard {p : Point} {dir : String} {q : Point}
    (hb : onBoard p) (h : stepPos p dir = some q) : onBoard q := by
  obtain ⟨h1, h2, h3, h4⟩ := hb
  rw [stepPos] at h
  by_cases hu : dir = "up"
  · rw [if_pos hu] at h
    cases h
    by_cases hy : p.y > 0
    · rw [if_pos hy]
      refine ⟨h1, h2, ?_, ?_⟩
      · show 0 ≤ p.y - 1
        omega
      · show p.y - 1 < BoardHeight
        omega
    · rw [if_neg hy]
      exact ⟨h1, h2, h3, h4⟩
  · rw [if_neg hu] at h
    by_cases hd : dir = "down"
    · rw [if_pos hd] at h
      cases h
      by_cases hy : p.y < BoardHeight - 1
      · rw [if_pos hy]
        refine ⟨h1, h2, ?_, ?_⟩
        · show 0 ≤ p.y + 1
          omega
        · show p.y + 1 < BoardHeight
          omega
      · rw [if_neg hy]
        exact ⟨h1, h2, h3, h4⟩
    · rw [if_neg hd] at h
      by_cases hl : dir = "left"
      · rw [if_pos hl] at h
        cases h
        by_cases hx : p.x > 0
        · rw [if_pos hx]
          refine ⟨?_, ?_, h3, h4⟩
          · show 0 ≤ p.x - 1
            omega
          · show p.x - 1 < BoardWidth
            omega
        · rw [if_neg hx]
          exact ⟨h1, h2, h3, h4⟩
      · rw [if_neg hl] at h
        by_cases hr : dir = "right"
        · rw [if_pos hr] at h
          cases h
          by_cases hx : p.x < BoardWidth - 1
          · rw [if_pos hx]
            refine ⟨?_, ?_, h3, h4⟩
            · show 0 ≤ p.x + 1
              omega
            · show p.x + 1 < BoardWidth
              omega
          · rw [if_neg hx]
            exact ⟨h1, h2, h3, h4⟩
        · rw [if_neg hr] at h
          cases h

lemma stepPos_invalid {p : Point} {dir : String}
    (h1 : dir ≠ "up") (h2 : dir ≠ "down") (h3 : dir ≠ "left") (h4 : dir ≠ "right") :
    stepPos p dir = none := by
  rw [stepPos, if_neg h1, if_neg h2, if_neg h3, if_neg h4]

lemma pickFree_spec {ok : Point → Bool} : ∀ {cands : List Point} {c : Point}
    {rest : List Point}, pickFree ok cands = some (c, rest) →
    c ∈ cands ∧ ok c = true := by
  intro cands
  induction cands with
  | nil => intro c rest h; cases h
  | cons a t ih =>
    intro c rest h
    rw [pickFree] at h
    by_cases ha : ok a = true
    · rw [if_pos ha] at h
      cases h
      exact ⟨List.mem_cons_self a t, ha⟩
    · rw [if_neg ha] at h
      obtain ⟨hm, ho⟩ := ih h
      exact ⟨List.mem_cons_of_mem a hm, ho⟩

lemma itemFreeOk_spec {players : List (String × Player)}
    {cur : List (String × Item)} {c : Point} (h : itemFreeOk players cur c = true) :
    lookupA (posKey c) cur = none ∧
      ∀ q ∈ players, ¬(q.2.Pos.x = c.x ∧ q.2.Pos.y = c.y) := by
  rw [itemFreeOk, Bool.and_eq_true] at h
  obtain ⟨h1, h2⟩ := h
  constructor
  · exact Option.isNone_iff_eq_none.mp h1
  · intro q hq hc
    rw [Bool.not_eq_true'] at h2
    have := List.any_eq_false.mp h2 q hq
    rw [Bool.and_eq_true] at this
    exact this ⟨beq_iff_eq.mpr hc.1, beq_iff_eq.mpr hc.2⟩

lemma spawnOk_spec {gs : GameState} {c : Point} (h : spawnOk gs c = true) :
    (∀ q ∈ gs.Players, ¬(q.2.Pos.x = c.x ∧ q.2.Pos.y = c.y)) ∧
      lookupA (posKey c) gs.Items = none := by
  rw [spawnOk, Bool.and_eq_true] at h
  obtain ⟨h1, h2⟩ := h
  constructor
  · intro q hq hc
    rw [Bool.not_eq_true'] at h1
    have := List.any_eq_false.mp h1 q hq
    rw [Bool.and_eq_true] at this
    exact this ⟨beq_iff_eq.mpr hc.1, beq_iff_eq.mpr hc.2⟩
  · exact Option.isNone_iff_eq_none.mp h2

lemma placeItemsAux_mem (players : List (String × Player)) :
    ∀ (n i : Nat) (cands : List Point) (cur : List (String × Item))
      (acc : List Item) (cur' : List (String × Item)) (acc' : List Item),
    placeItemsAux players n i cands cur acc = some (cur', acc') →
    ∀ e ∈ cur', e ∈ cur ∨ (e.1 = posKey e.2.Pos ∧
      ∀ q ∈ players, ¬(q.2.Pos.x = e.2.Pos.x ∧ q.2.Pos.y = e.2.Pos.y)) := by
  intro n
  induction n with
  | zero =>
    intro i cands cur acc cur' acc' h e he
    rw [placeItemsAux] at h
    cases h
    exact Or.inl he
  | succ n ih =>
    intro i cands cur acc cur' acc' h e he
    rw [placeItemsAux] at h
    rcases hp : pickFree (itemFreeOk players cur) cands with _ | ⟨pos, rest⟩
    · rw [hp] at h; cases h
    · rw [hp] at h
      obtain ⟨_, hok⟩ := pickFree_spec hp
      obtain ⟨_, hnp⟩ := itemFreeOk_spec hok
      have := ih (i + 1) rest
        (insertA (posKey pos) { ID := "item_" ++ toString i, Pos := pos } cur)
        (acc ++ [{ ID := "item_" ++ toString i, Pos := pos }]) cur' acc' h e he
      rcases this with hin | hnew
      · rcases mem_insertA hin with rfl | hin
        · exact Or.inr ⟨rfl, hnp⟩
        · exact Or.inl hin
      · exact Or.inr hnew

lemma placeItemsAux_length (players : List (String × Player)) :
    ∀ (n i : Nat) (cands : List Point) (cur : List (String × Item))
      (acc : List Item) (cur' : List (String × Item)) (acc' : List Item),
    placeItemsAux players n i cands cur acc = some (cur', acc') →
    cur'.length = cur.length + n := by
  intro n
  induction n with
  | zero =>
    intro i cands cur acc cur' acc' h
    rw [placeItemsAux] at h
    cases h
    rfl
  | succ n ih =>
    intro i cands cur acc cur' acc' h
    rw [placeItemsAux] at h
    rcases hp : pickFree (itemFreeOk players cur) cands with _ | ⟨pos, rest⟩
    · rw [hp] at h; cases h
    · rw [hp] at h
      obtain ⟨_, hok⟩ := pickFree_spec hp
      obtain ⟨hnone, _⟩ := itemFreeOk_spec hok
      have hrec := ih (i + 1) rest
        (insertA (posKey pos) { ID := "item_" ++ toString i, Pos := pos } cur)
        (acc ++ [{ ID := "item_" ++ toString i, Pos := pos }]) cur' acc' h
      rw [length_insertA_of_none _ hnone] at hrec
      omega

lemma resetScores_fst : ∀ (l : List (String × Player)) (pu : List (String × PlayerDelta)),
    (resetScores l pu).1 =
      l.map (fun e => if e.2.IsActive = true then (e.1, { e.2 with Score := 0 }) else e) := by
  intro l
  induction l with
  | nil => intro pu; rfl
  | cons e t ih =>
    intro pu
    obtain ⟨pid, p⟩ := e
    by_cases ha : p.IsActive = true
    · rw [resetScores, if_pos (by simpa using ha)]
      simp only [List.map_cons]
      rw [if_pos ha, ih]
    · rw [resetScores, if_neg (by simpa using ha)]
      simp only [List.map_cons]
      rw [if_neg ha, ih]

/-! ## The reachable-state invariant -/



/-- What `initializeItems` does to the state components the invariant
mentions: the placement loop succeeded, the players are the score-reset ones,
the items are the freshly placed map, and game-over is cleared. -/
lemma initializeItems_shape {gs : GameState} {cands : List Point} {gs' : GameState}
    (h : initializeItems gs cands = some gs') :
    ∃ cur lst, placeItemsAux gs.Players NumItems 0 cands [] [] = some (cur, lst) ∧
      gs'.Players = gs.Players.map resetEntry ∧
      gs'.Items = cur ∧ gs'.GameOver = false := by
  rw [initializeItems] at h
  rcases hp : placeItemsAux (resetPendingDeltas gs).Players NumItems 0 cands [] []
    with _ | ⟨cur, lst⟩
  · rw [hp] at h; cases h
  · rw [hp] at h
    have hcond : ¬((resetPendingDeltas gs).pendingDeltas.GameStatus = none ∧
        ((false : Bool) = true ∨ ("" : String) ≠ "")) := by
      rintro ⟨-, hq | hq⟩
      · cases hq
      · exact hq rfl
    simp only [Option.some.injEq, if_neg hcond] at h
    subst h
    refine ⟨cur, lst, hp, ?_, rfl, rfl⟩
    rw [resetScores_fst]
    rfl

lemma initializeItems_WF {gs : GameState} {cands : List Point} {gs' : GameState}
    (h : initializeItems gs cands = some gs')
    (hinb : ∀ e ∈ gs.Players, onBoard e.2.Pos)
    (hnn : ∀ e ∈ gs.Players, 0 ≤ e.2.Score) : WF gs' := by
  obtain ⟨cur, lst, hp, hP, hI, hG⟩ := initializeItems_shape h
  have hmem := placeItemsAux_mem gs.Players NumItems 0 cands [] [] cur lst hp
  have hlen := placeItemsAux_length gs.Players NumItems 0 cands [] [] cur lst hp
  simp only [List.length_nil, Nat.zero_add] at hlen
  have hresetPos : ∀ e : String × Player, (resetEntry e).2.Pos = e.2.Pos := by
    intro e
    rw [resetEntry]
    by_cases ha : e.2.IsActive = true
    · rw [if_pos ha]
    · rw [if_neg ha]
  constructor
  · rw [hG, hI]
    constructor
    · intro hf; cases hf
    · intro hempty
      exfalso
      rw [hempty] at hlen
      simp [NumItems] at hlen
  · intro e he
    rw [hP] at he
    obtain ⟨e0, he0, hfe⟩ := List.mem_map.mp he
    rw [← hfe, hresetPos]
    exact hinb e0 he0
  · intro e he
    rw [hI] at he
    rcases hmem e he with hin | ⟨hk, _⟩
    · cases hin
    · exact hk
  · intro e he q hq _
    rw [hI] at he
    rw [hP] at hq
    obtain ⟨q0, hq0, hfq⟩ := List.mem_map.mp hq
    rcases hmem e he with hin | ⟨_, hnp⟩
    · cases hin
    · intro heq
      refine hnp q0 hq0 ?_
      rw [← hfq, hresetPos] at heq
      rw [← heq]
      exact ⟨rfl, rfl⟩
  · intro q hq
    rw [hP] at hq
    obtain ⟨q0, hq0, hfq⟩ := List.mem_map.mp hq
    rw [← hfq, resetEntry]
    by_cases ha : q0.2.IsActive = true
    · rw [if_pos ha]
    · rw [if_neg ha]
      exact hnn q0 hq0

lemma addPlayer_shape {gs : GameState} {id : String} {cands : List Point}
    {gs' : GameState} {p : Player} (h : addPlayer gs id cands = some (gs', p)) :
    ∃ startPos rest, pickFree (spawnOk gs) cands = some (startPos, rest) ∧
      p = { ID := id, Pos := startPos, Score := 0, IsActive := true } ∧
      gs' = { gs with
               Players := insertA id p gs.Players,
               pendingDeltas := { gs.pendingDeltas with
                 PlayersUpdated := insertA id
                   { ID := id, Pos := some startPos, Score := some 0 }
                   gs.pendingDeltas.PlayersUpdated } } := by
  rw [addPlayer] at h
  rcases hp : pickFree (spawnOk gs) cands with _ | ⟨startPos, rest⟩
  · rw [hp] at h; cases h
  · rw [hp] at h
    injection h with h2
    rw [Prod.mk.injEq] at h2
    obtain ⟨h3, h4⟩ := h2
    subst h3
    subst h4
    exact ⟨startPos, rest, rfl, rfl, rfl⟩

lemma addPlayer_WF {gs : GameState} {id : String} {cands : List Point}
    {gs' : GameState} {p : Player} (h : addPlayer gs id cands = some (gs', p))
    (hc : ∀ c ∈ cands, onBoard c) (hwf : WF gs) : WF gs' := by
  obtain ⟨startPos, rest, hp, hpl, hgs⟩ := addPlayer_shape h
  obtain ⟨hmem, hok⟩ := pickFree_spec hp
  obtain ⟨_, hitem⟩ := spawnOk_spec hok
  subst hgs
  constructor
  · exact hwf.c1
  · intro e he
    rcases mem_insertA he with rfl | he
    · rw [hpl]
      exact hc startPos hmem
    · exact hwf.inb e he
  · exact hwf.keyPos
  · intro e he q hq hqa
    rcases mem_insertA hq with rfl | hq
    · intro heq
      have h1 := hwf.keyPos e he
      rw [hpl] at heq
      have h2 : e.1 = posKey startPos := by rw [h1, heq]
      exact (lookupA_eq_none_iff (posKey startPos) gs.Items).mp hitem e he h2
    · exact hwf.noOver e he q hq hqa
  · intro q hq
    rcases mem_insertA hq with rfl | hq
    · rw [hpl]
    · exact hwf.nonneg q hq

lemma removePlayer_WF {gs : GameState} (id : String) (hwf : WF gs) :
    WF (removePlayer gs id).1 := by
  rw [removePlayer]
  rcases hl : lookupA id gs.Players with _ | p
  · exact hwf
  · constructor
    · exact hwf.c1
    · intro e he
      exact hwf.inb e (mem_eraseA he).1
    · exact hwf.keyPos
    · intro e he q hq hqa
      exact hwf.noOver e he q (mem_eraseA hq).1 hqa
    · intro q hq
      exact hwf.nonneg q (mem_eraseA hq).1

lemma broadcastUpdates_WF {gs : GameState} (hwf : WF gs) :
    WF (broadcastUpdates gs).1 := by
  rw [broadcastUpdates]
  split
  · exact hwf
  · exact ⟨hwf.c1, hwf.inb, hwf.keyPos, hwf.noOver, hwf.nonneg⟩

lemma gameOverPhase_Players (gs : GameState) :
    (gameOverPhase gs).Players = gs.Players := by
  simp only [gameOverPhase]
  split <;> rfl

lemma gameOverPhase_Items (gs : GameState) :
    (gameOverPhase gs).Items = gs.Items := by
  simp only [gameOverPhase]
  split <;> rfl

lemma gameOverPhase_GameOver (gs : GameState) :
    (gameOverPhase gs).GameOver = true := by
  simp only [gameOverPhase]
  split <;> rfl

lemma gameOverPhase_WF {gs : GameState} (hI : gs.Items = [])
    (hinb : ∀ e ∈ gs.Players, onBoard e.2.Pos)
    (hnn : ∀ q ∈ gs.Players, 0 ≤ q.2.Score) : WF (gameOverPhase gs) := by
  constructor
  · rw [gameOverPhase_GameOver, gameOverPhase_Items, hI]
    exact ⟨fun _ => rfl, fun _ => rfl⟩
  · rw [gameOverPhase_Players]
    exact hinb
  · rw [gameOverPhase_Items, hI]
    intro e he
    cases he
  · rw [gameOverPhase_Items, hI]
    intro e he
    cases he
  · rw [gameOverPhase_Players]
    exact hnn

lemma collectPhase_none {gs : GameState} {pid : String} {p1 : Player} {np : Point}
    (h : lookupA (posKey np) gs.Items = none) :
    collectPhase gs pid p1 np = gs := by
  rw [collectPhase, h]

lemma collectPhase_some {gs : GameState} {pid : String} {p1 : Player} {np : Point}
    {it : Item} (h : lookupA (posKey np) gs.Items = some it) :
    collectPhase gs pid p1 np =
      if (collectedState gs pid p1 np).Items.length == 0
      then gameOverPhase (collectedState gs pid p1 np)
      else collectedState gs pid p1 np := by
  rw [collectPhase, h]

lemma collectedState_Players (gs : GameState) (pid : String) (p1 : Player)
    (np : Point) : (collectedState gs pid p1 np).Players =
      insertA pid { p1 with Score := p1.Score + 1 } gs.Players := rfl

lemma collectedState_Items (gs : GameState) (pid : String) (p1 : Player)
    (np : Point) : (collectedState gs pid p1 np).Items =
      eraseA (posKey np) gs.Items := rfl

lemma collectedState_GameOver (gs : GameState) (pid : String) (p1 : Player)
    (np : Point) : (collectedState gs pid p1 np).GameOver = gs.GameOver := rfl

lemma collectedState_WinnerID (gs : GameState) (pid : String) (p1 : Player)
    (np : Point) : (collectedState gs pid p1 np).WinnerID = gs.WinnerID := rfl

lemma collectedState_ItemsRemoved (gs : GameState) (pid : String) (p1 : Player)
    (np : Point) : (collectedState gs pid p1 np).pendingDeltas.ItemsRemoved =
      gs.pendingDeltas.ItemsRemoved ++ [posKey np] := rfl

lemma collectedState_GameStatus (gs : GameState) (pid : String) (p1 : Player)
    (np : Point) : (collectedState gs pid p1 np).pendingDeltas.GameStatus =
      gs.pendingDeltas.GameStatus := rfl

lemma collectedState_PlayersUpdated (gs : GameState) (pid : String) (p1 : Player)
    (np : Point) : (collectedState gs pid p1 np).pendingDeltas.PlayersUpdated =
      insertA pid
        { (match lookupA pid gs.pendingDeltas.PlayersUpdated with
           | some d => d
           | none => { ID := pid, Pos := none, Score := none }) with
            Score := some (p1.Score + 1) }
        gs.pendingDeltas.PlayersUpdated := rfl

lemma applyMovedUpdate_Players (gs : GameState) (pid : String) (p1 : Player)
    (np : Point) : (applyMovedUpdate gs pid p1 np).Players =
      insertA pid p1 gs.Players := rfl

lemma applyMovedUpdate_Items (gs : GameState) (pid : String) (p1 : Player)
    (np : Point) : (applyMovedUpdate gs pid p1 np).Items = gs.Items := rfl

lemma applyMovedUpdate_GameOver (gs : GameState) (pid : String) (p1 : Player)
    (np : Point) : (applyMovedUpdate gs pid p1 np).GameOver = gs.GameOver := rfl

lemma applyMovedUpdate_WinnerID (gs : GameState) (pid : String) (p1 : Player)
    (np : Point) : (applyMovedUpdate gs pid p1 np).WinnerID = gs.WinnerID := rfl

lemma applyMovedUpdate_ItemsRemoved (gs : GameState) (pid : String) (p1 : Player)
    (np : Point) : (applyMovedUpdate gs pid p1 np).pendingDeltas.ItemsRemoved =
      gs.pendingDeltas.ItemsRemoved := rfl

lemma applyMovedUpdate_GameStatus (gs : GameState) (pid : String) (p1 : Player)
    (np : Point) : (applyMovedUpdate gs pid p1 np).pendingDeltas.GameStatus =
      gs.pendingDeltas.GameStatus := rfl

lemma applyMovedUpdate_PlayersUpdated (gs : GameState) (pid : String) (p1 : Player)
    (np : Point) : (applyMovedUpdate gs pid p1 np).pendingDeltas.PlayersUpdated =
      insertA pid
        { (match lookupA pid gs.pendingDeltas.PlayersUpdated with
           | some d => d
           | none => { ID := pid, Pos := none, Score := none }) with
            Pos := some np }
        gs.pendingDeltas.PlayersUpdated := rfl

lemma collectPhase_WF {gs0 : GameState} {pid : String} {player1 : Player}
    {newPos : Point}
    (h1 : player1.Pos = newPos)
    (hbP : onBoard newPos)
    (hnn1 : 0 ≤ player1.Score)
    (hg : gs0.GameOver = false)
    (hne : gs0.Items ≠ [])
    (hinb : ∀ e ∈ gs0.Players, onBoard e.2.Pos)
    (hnn : ∀ q ∈ gs0.Players, 0 ≤ q.2.Score)
    (hkey : ∀ e ∈ gs0.Items, e.1 = posKey e.2.Pos)
    (hno : ∀ e ∈ gs0.Items, ∀ q ∈ gs0.Players, q.2.IsActive = true →
       e.2.Pos ≠ q.2.Pos ∨ q.2.Pos = newPos) :
    WF (collectPhase gs0 pid player1 newPos) := by
  rcases hitem : lookupA (posKey newPos) gs0.Items with _ | it
  · rw [collectPhase_none hitem]
    constructor
    · rw [hg]
      exact ⟨(fun hf => nomatch hf), fun he => (hne he).elim⟩
    · exact hinb
    · exact hkey
    · intro e he q hq hqa
      rcases hno e he q hq hqa with hd | hd
      · exact hd
      · intro heq
        have hk2 : e.1 = posKey newPos := by rw [hkey e he, heq, hd]
        exact (lookupA_eq_none_iff (posKey newPos) gs0.Items).mp hitem e he hk2
    · exact hnn
  · rw [collectPhase_some hitem]
    have hinb2 : ∀ e ∈ insertA pid { player1 with Score := player1.Score + 1 }
        gs0.Players, onBoard e.2.Pos := by
      intro e he
      rcases mem_insertA he with rfl | he
      · show onBoard player1.Pos
        rw [h1]
        exact hbP
      · exact hinb e he
    have hnn2 : ∀ q ∈ insertA pid { player1 with Score := player1.Score + 1 }
        gs0.Players, 0 ≤ q.2.Score := by
      intro q hq
      rcases mem_insertA hq with rfl | hq
      · show 0 ≤ player1.Score + 1
        omega
      · exact hnn q hq
    have hkey2 : ∀ e ∈ eraseA (posKey newPos) gs0.Items, e.1 = posKey e.2.Pos :=
      fun e he => hkey e (mem_eraseA he).1
    have hno2 : ∀ e ∈ eraseA (posKey newPos) gs0.Items,
        ∀ q ∈ insertA pid { player1 with Score := player1.Score + 1 } gs0.Players,
        q.2.IsActive = true → e.2.Pos ≠ q.2.Pos := by
      intro e he q hq hqa
      have hek : e.1 ≠ posKey newPos := (mem_eraseA he).2
      have hem : e ∈ gs0.Items := (mem_eraseA he).1
      have heq' : e.2.Pos ≠ newPos := by
        intro heq
        exact hek (by rw [hkey e hem, heq])
      rcases mem_insertA hq with rfl | hq
      · show e.2.Pos ≠ player1.Pos
        rw [h1]
        exact heq'
      · rcases hno e hem q hq hqa with hd | hd
        · exact hd
        · intro heq
          exact heq' (by rw [heq, hd])
    by_cases hlen : (collectedState gs0 pid player1 newPos).Items.length == 0
    · rw [if_pos hlen]
      rw [collectedState_Items] at hlen
      apply gameOverPhase_WF
      · rw [collectedState_Items]
        exact List.length_eq_zero.mp (by simpa using hlen)
      · rw [collectedState_Players]
        exact hinb2
      · rw [collectedState_Players]
        exact hnn2
    · rw [if_neg hlen]
      rw [collectedState_Items] at hlen
      constructor
      · rw [collectedState_GameOver, collectedState_Items, hg]
        refine ⟨(fun hf => nomatch hf), fun he => ?_⟩
        exfalso
        rw [he] at hlen
        exact hlen rfl
      · rw [collectedState_Players]
        exact hinb2
      · rw [collectedState_Items]
        exact hkey2
      · intro e he q hq hqa
        rw [collectedState_Items] at he
        rw [collectedState_Players] at hq
        exact hno2 e he q hq hqa
      · rw [collectedState_Players]
        exact hnn2

lemma hpm_gameOver {gs : GameState} {pid dir : String} (hgo : gs.GameOver = true) :
    handlePlayerMove gs pid dir = gs := by
  rw [handlePlayerMove, if_pos hgo]

lemma hpm_unknown {gs : GameState} {pid dir : String}
    (hl : lookupA pid gs.Players = none) : handlePlayerMove gs pid dir = gs := by
  rw [handlePlayerMove]
  by_cases hgo : gs.GameOver
  · rw [if_pos hgo]
  · rw [if_neg hgo, hl]

lemma hpm_inactive {gs : GameState} {pid dir : String} {player : Player}
    (hl : lookupA pid gs.Players = some player) (hact : player.IsActive = false) :
    handlePlayerMove gs pid dir = gs := by
  rw [handlePlayerMove]
  by_cases hgo : gs.GameOver
  · rw [if_pos hgo]
  · rw [if_neg hgo, hl]
    show (if (!player.IsActive) = true then gs else _) = gs
    rw [if_pos (by rw [hact]; rfl)]

lemma hpm_invalidDir {gs : GameState} {pid dir : String} {player : Player}
    (hl : lookupA pid gs.Players = some player) (hact : player.IsActive = true)
    (hs : stepPos player.Pos dir = none) : handlePlayerMove gs pid dir = gs := by
  rw [handlePlayerMove]
  by_cases hgo : gs.GameOver
  · rw [if_pos hgo]
  · rw [if_neg hgo, hl]
    show (if (!player.IsActive) = true then gs else _) = gs
    rw [if_neg (by rw [hact]; decide)]
    show (match stepPos player.Pos dir with
          | none => gs
          | some newPos =>
            let player1 := if player.Pos ≠ newPos then { player with Pos := newPos } else player
            let gsA := if player.Pos ≠ newPos then applyMovedUpdate gs pid player1 newPos else gs
            collectPhase gsA pid player1 newPos) = gs
    rw [hs]

lemma hpm_moved {gs : GameState} {pid dir : String} {player : Player} {newPos : Point}
    (hgo : gs.GameOver = false) (hl : lookupA pid gs.Players = some player)
    (hact : player.IsActive = true) (hs : stepPos player.Pos dir = some newPos)
    (hmv : player.Pos ≠ newPos) :
    handlePlayerMove gs pid dir =
      collectPhase (applyMovedUpdate gs pid { player with Pos := newPos } newPos)
        pid { player with Pos := newPos } newPos := by
  rw [handlePlayerMove]
  rw [if_neg (by rw [hgo]; decide), hl]
  show (if (!player.IsActive) = true then gs else _) = _
  rw [if_neg (by rw [hact]; decide)]
  show (match stepPos player.Pos dir with
        | none => gs
        | some newPos =>
          let player1 := if player.Pos ≠ newPos then { player with Pos := newPos } else player
          let gsA := if player.Pos ≠ newPos then applyMovedUpdate gs pid player1 newPos else gs
          collectPhase gsA pid player1 newPos) = _
  rw [hs]
  show collectPhase
      (if player.Pos ≠ newPos
       then applyMovedUpdate gs pid
              (if player.Pos ≠ newPos then { player with Pos := newPos } else player) newPos
       else gs) pid
      (if player.Pos ≠ newPos then { player with Pos := newPos } else player) newPos = _
  rw [if_pos hmv, if_pos hmv]

lemma hpm_unmoved {gs : GameState} {pid dir : String} {player : Player} {newPos : Point}
    (hgo : gs.GameOver = false) (hl : lookupA pid gs.Players = some player)
    (hact : player.IsActive = true) (hs : stepPos player.Pos dir = some newPos)
    (hmv : player.Pos = newPos) :
    handlePlayerMove gs pid dir = collectPhase gs pid player newPos := by
  rw [handlePlayerMove]
  rw [if_neg (by rw [hgo]; decide), hl]
  show (if (!player.IsActive) = true then gs else _) = _
  rw [if_neg (by rw [hact]; decide)]
  show (match stepPos player.Pos dir with
        | none => gs
        | some newPos =>
          let player1 := if player.Pos ≠ newPos then { player with Pos := newPos } else player
          let gsA := if player.Pos ≠ newPos then applyMovedUpdate gs pid player1 newPos else gs
          collectPhase gsA pid player1 newPos) = _
  rw [hs]
  show collectPhase
      (if player.Pos ≠ newPos
       then applyMovedUpdate gs pid
              (if player.Pos ≠ newPos then { player with Pos := newPos } else player) newPos
       else gs) pid
      (if player.Pos ≠ newPos then { player with Pos := newPos } else player) newPos = _
  rw [if_neg (not_not.mpr hmv), if_neg (not_not.mpr hmv)]

lemma handlePlayerMove_WF {gs : GameState} (pid dir : String) (hwf : WF gs) :
    WF (handlePlayerMove gs pid dir) := by
  by_cases hgo : gs.GameOver = true
  · rw [hpm_gameOver hgo]
    exact hwf
  · have hgof : gs.GameOver = false := Bool.eq_false_iff.mpr hgo
    rcases hl : lookupA pid gs.Players with _ | player
    · rw [hpm_unknown hl]
      exact hwf
    · have hmemP : (pid, player) ∈ gs.Players := lookupA_some_mem hl
      by_cases hact : player.IsActive = true
      · rcases hs : stepPos player.Pos dir with _ | newPos
        · rw [hpm_invalidDir hl hact hs]
          exact hwf
        · have hbP : onBoard newPos := stepPos_onBoard (hwf.inb _ hmemP) hs
          have hne : gs.Items ≠ [] := fun he => hgo (hwf.c1.mpr he)
          by_cases hmv : player.Pos = newPos
          · rw [hpm_unmoved hgof hl hact hs hmv]
            exact collectPhase_WF hmv hbP (hwf.nonneg _ hmemP) hgof hne hwf.inb
              hwf.nonneg hwf.keyPos
              (fun e he q hq hqa => Or.inl (hwf.noOver e he q hq hqa))
          · rw [hpm_moved hgof hl hact hs hmv]
            refine collectPhase_WF rfl hbP (hwf.nonneg _ hmemP) ?_ ?_ ?_ ?_ ?_ ?_
            · rw [applyMovedUpdate_GameOver]
              exact hgof
            · rw [applyMovedUpdate_Items]
              exact hne
            · rw [applyMovedUpdate_Players]
              intro e he
              rcases mem_insertA he with rfl | he
              · exact hbP
              · exact hwf.inb e he
            · rw [applyMovedUpdate_Players]
              intro q hq
              rcases mem_insertA hq with rfl | hq
              · show 0 ≤ player.Score
                exact hwf.nonneg _ hmemP
              · exact hwf.nonneg q hq
            · rw [applyMovedUpdate_Items]
              exact hwf.keyPos
            · rw [applyMovedUpdate_Items, applyMovedUpdate_Players]
              intro e he q hq hqa
              rcases mem_insertA hq with rfl | hq
              · exact Or.inr rfl
              · exact Or.inl (hwf.noOver e he q hq hqa)
      · have hb : player.IsActive = false := Bool.eq_false_iff.mpr hact
        rw [hpm_inactive hl hb]
        exact hwf

/-- Every reachable world state satisfies the master invariant. -/
lemma reachable_WF {gs : GameState} (h : Reachable gs) : WF gs := by
  induction h with
  | init cands gs' hc h =>
    exact initializeItems_WF h (fun e he => by cases he) (fun e he => by cases he)
  | add gs id cands gs' p hr hc h ih => exact addPlayer_WF h hc ih
  | remove gs id hr ih => exact removePlayer_WF id ih
  | move gs id dir hr ih => exact handlePlayerMove_WF id dir ih
  | reset gs cands gs' hr hg hc h ih => exact initializeItems_WF h ih.inb ih.nonneg
  | tick gs hr ih => exact broadcastUpdates_WF ih

/-! ## Further facts about the phases -/

lemma gameOverPhase_PlayersUpdated (gs : GameState) :
    (gameOverPhase gs).pendingDeltas.PlayersUpdated =
      gs.pendingDeltas.PlayersUpdated := by
  simp only [gameOverPhase]
  split <;> rfl

lemma gameOverPhase_ItemsRemoved (gs : GameState) :
    (gameOverPhase gs).pendingDeltas.ItemsRemoved =
      gs.pendingDeltas.ItemsRemoved := by
  simp only [gameOverPhase]
  split <;> rfl

lemma gameOverPhase_WinnerID_pos (gs : GameState)
    (h : computeWinners gs.Players ≠ []) :
    (gameOverPhase gs).WinnerID = formatWinners (computeWinners gs.Players) := by
  simp only [gameOverPhase]
  rw [if_pos (List.length_pos.mpr h)]

lemma gameOverPhase_WinnerID_neg (gs : GameState)
    (h : computeWinners gs.Players = []) :
    (gameOverPhase gs).WinnerID = gs.WinnerID := by
  simp only [gameOverPhase]
  rw [if_neg]
  intro hlt
  rw [h] at hlt
  simp at hlt

lemma gameOverPhase_GameStatus (gs : GameState) :
    (gameOverPhase gs).pendingDeltas.GameStatus =
      some { GameOver := true, WinnerID := (gameOverPhase gs).WinnerID } := by
  simp only [gameOverPhase]

lemma winnersLoop_no_active : ∀ (l : List Player) (ws : Int) (acc : List String),
    (∀ p ∈ l, p.IsActive = false) → (winnersLoop l ws acc).2 = acc := by
  intro l
  induction l with
  | nil => intro ws acc _; rfl
  | cons p t ih =>
    intro ws acc h
    rw [winnersLoop]
    rw [if_neg (by rw [h p (List.mem_cons_self p t)]; decide)]
    exact ih ws acc (fun q hq => h q (List.mem_cons_of_mem p hq))

lemma computeWinners_no_active (players : List (String × Player))
    (h : ∀ q ∈ players, q.2.IsActive = false) : computeWinners players = [] := by
  rw [computeWinners]
  apply winnersLoop_no_active
  intro p hp
  obtain ⟨e, he, hep⟩ := List.mem_map.mp hp
  rw [← hep]
  exact h e he

lemma lookupA_map_resetEntry (qid : String) : ∀ (l : List (String × Player)),
    lookupA qid (l.map resetEntry) =
      (lookupA qid l).map
        (fun p => if p.IsActive = true then { p with Score := 0 } else p) := by
  intro l
  induction l with
  | nil => rfl
  | cons e t ih =>
    obtain ⟨k, v⟩ := e
    by_cases ha : v.IsActive = true
    · have hre : resetEntry (k, v) = (k, { v with Score := 0 }) := by
        rw [resetEntry, if_pos ha]
      rw [List.map_cons, hre]
      by_cases hk : k = qid
      · rw [lookupA, if_pos hk, lookupA, if_pos hk]
        show some _ = some (if v.IsActive = true then { v with Score := 0 } else v)
        rw [if_pos ha]
      · rw [lookupA, if_neg hk, lookupA, if_neg hk]
        exact ih
    · have hre : resetEntry (k, v) = (k, v) := by
        rw [resetEntry, if_neg ha]
      rw [List.map_cons, hre]
      by_cases hk : k = qid
      · rw [lookupA, if_pos hk, lookupA, if_pos hk]
        show some v = some (if v.IsActive = true then { v with Score := 0 } else v)
        rw [if_neg ha]
      · rw [lookupA, if_neg hk, lookupA, if_neg hk]
        exact ih

/-- What the collectible check leaves behind: either no collectible was hit
and the state is untouched, or the mover's entry was written with the
incremented score, the collectible's key was deleted and its removal
recorded. -/
lemma collectPhase_effects (gs0 : GameState) (pid : String) (p1 : Player)
    (np : Point) :
    (collectPhase gs0 pid p1 np = gs0 ∧ lookupA (posKey np) gs0.Items = none) ∨
    ((collectPhase gs0 pid p1 np).Players =
        insertA pid { p1 with Score := p1.Score + 1 } gs0.Players ∧
     (collectPhase gs0 pid p1 np).Items = eraseA (posKey np) gs0.Items ∧
     (collectPhase gs0 pid p1 np).pendingDeltas.ItemsRemoved =
        gs0.pendingDeltas.ItemsRemoved ++ [posKey np] ∧
     (collectPhase gs0 pid p1 np).pendingDeltas.PlayersUpdated =
        insertA pid
          { (match lookupA pid gs0.pendingDeltas.PlayersUpdated with
             | some d => d
             | none => { ID := pid, Pos := none, Score := none }) with
              Score := some (p1.Score + 1) }
          gs0.pendingDeltas.PlayersUpdated ∧
     (lookupA (posKey np) gs0.Items).isSome = true) := by
  rcases hitem : lookupA (posKey np) gs0.Items with _ | it
  · exact Or.inl ⟨collectPhase_none hitem, rfl⟩
  · right
    rw [collectPhase_some hitem]
    by_cases hlen : (collectedState gs0 pid p1 np).Items.length == 0
    · rw [if_pos hlen]
      rw [gameOverPhase_Players, gameOverPhase_Items, gameOverPhase_ItemsRemoved,
          gameOverPhase_PlayersUpdated, collectedState_Players, collectedState_Items,
          collectedState_ItemsRemoved, collectedState_PlayersUpdated]
      exact ⟨rfl, rfl, rfl, rfl, rfl⟩
    · rw [if_neg hlen]
      rw [collectedState_Players, collectedState_Items, collectedState_ItemsRemoved,
          collectedState_PlayersUpdated]
      exact ⟨rfl, rfl, rfl, rfl, rfl⟩

/-! ## The per-move record and its coalescing -/

lemma recordOf_gameOver {gs : GameState} {pid dir : String}
    (hgo : gs.GameOver = true) : recordOf gs pid dir = (none, none) := by
  rw [recordOf, if_pos hgo]

lemma recordOf_unknown {gs : GameState} {pid dir : String}
    (hl : lookupA pid gs.Players = none) : recordOf gs pid dir = (none, none) := by
  rw [recordOf]
  by_cases hgo : gs.GameOver
  · rw [if_pos hgo]
  · rw [if_neg hgo, hl]

lemma recordOf_inactive {gs : GameState} {pid dir : String} {player : Player}
    (hl : lookupA pid gs.Players = some player) (hact : player.IsActive = false) :
    recordOf gs pid dir = (none, none) := by
  rw [recordOf]
  by_cases hgo : gs.GameOver
  · rw [if_pos hgo]
  · rw [if_neg hgo, hl]
    show (if (!player.IsActive) = true then (none, none) else _) = (none, none)
    rw [if_pos (by rw [hact]; rfl)]

lemma recordOf_invalidDir {gs : GameState} {pid dir : String} {player : Player}
    (hl : lookupA pid gs.Players = some player) (hact : player.IsActive = true)
    (hs : stepPos player.Pos dir = none) : recordOf gs pid dir = (none, none) := by
  rw [recordOf]
  by_cases hgo : gs.GameOver
  · rw [if_pos hgo]
  · rw [if_neg hgo, hl]
    show (if (!player.IsActive) = true then (none, none) else _) = (none, none)
    rw [if_neg (by rw [hact]; decide)]
    show (match stepPos player.Pos dir with
          | none => ((none : Option Point), (none : Option Int))
          | some newPos =>
            ((if player.Pos ≠ newPos then some newPos else none),
             (if (lookupA (posKey newPos) gs.Items).isSome
              then some (player.Score + 1) else none))) = (none, none)
    rw [hs]

lemma recordOf_main {gs : GameState} {pid dir : String} {player : Player}
    {newPos : Point} (hgo : gs.GameOver = false)
    (hl : lookupA pid gs.Players = some player) (hact : player.IsActive = true)
    (hs : stepPos player.Pos dir = some newPos) :
    recordOf gs pid dir =
      ((if player.Pos ≠ newPos then some newPos else none),
       (if (lookupA (posKey newPos) gs.Items).isSome
        then some (player.Score + 1) else none)) := by
  rw [recordOf]
  rw [if_neg (by rw [hgo]; decide), hl]
  show (if (!player.IsActive) = true then (none, none) else _) = _
  rw [if_neg (by rw [hact]; decide)]
  show (match stepPos player.Pos dir with
        | none => ((none : Option Point), (none : Option Int))
        | some newPos =>
          ((if player.Pos ≠ newPos then some newPos else none),
           (if (lookupA (posKey newPos) gs.Items).isSome
            then some (player.Score + 1) else none))) = _
  rw [hs]

/-- One `handlePlayerMove` call coalesces exactly its recorded changes into
the mover's pending entry (last-write-wins per field), and it cannot
duplicate the entry. -/
lemma hpm_delta_step (gs : GameState) (pid dir : String) :
    lookupA pid (handlePlayerMove gs pid dir).pendingDeltas.PlayersUpdated =
      specLWW pid (lookupA pid gs.pendingDeltas.PlayersUpdated)
        (recordOf gs pid dir) ∧
    countKey pid (handlePlayerMove gs pid dir).pendingDeltas.PlayersUpdated ≤
      max (countKey pid gs.pendingDeltas.PlayersUpdated) 1 := by
  by_cases hgo : gs.GameOver = true
  · rw [hpm_gameOver hgo, recordOf_gameOver hgo]
    exact ⟨rfl, le_max_left _ _⟩
  · have hgof : gs.GameOver = false := Bool.eq_false_iff.mpr hgo
    rcases hl : lookupA pid gs.Players with _ | player
    · rw [hpm_unknown hl, recordOf_unknown hl]
      exact ⟨rfl, le_max_left _ _⟩
    · by_cases hact : player.IsActive = true
      · rcases hs : stepPos player.Pos dir with _ | newPos
        · rw [hpm_invalidDir hl hact hs, recordOf_invalidDir hl hact hs]
          exact ⟨rfl, le_max_left _ _⟩
        · rw [recordOf_main hgof hl hact hs]
          by_cases hmv : player.Pos = newPos
          · rw [hpm_unmoved hgof hl hact hs hmv]
            rw [if_neg (not_not.mpr hmv)]
            rcases collectPhase_effects gs pid player newPos with
              ⟨heq, hnone⟩ | ⟨hP, hI, hIR, hPU, hSome⟩
            · rw [heq, hnone]
              exact ⟨rfl, le_max_left _ _⟩
            · rw [hPU, hSome, if_pos rfl]
              constructor
              · rw [lookupA_insertA_self]
                rcases hold : lookupA pid gs.pendingDeltas.PlayersUpdated with _ | d0 <;> rfl
              · rw [countKey_insertA_self]
          · rw [hpm_moved hgof hl hact hs hmv]
            rw [if_pos hmv]
            rcases collectPhase_effects (applyMovedUpdate gs pid
                { player with Pos := newPos } newPos) pid
                { player with Pos := newPos } newPos with
              ⟨heq, hnone⟩ | ⟨hP, hI, hIR, hPU, hSome⟩
            · rw [heq, applyMovedUpdate_PlayersUpdated]
              rw [applyMovedUpdate_Items] at hnone
              rw [hnone]
              constructor
              · rw [lookupA_insertA_self]
                rcases hold : lookupA pid gs.pendingDeltas.PlayersUpdated with _ | d0 <;> rfl
              · rw [countKey_insertA_self]
            · rw [applyMovedUpdate_Items] at hSome
              rw [hPU, applyMovedUpdate_PlayersUpdated, hSome, if_pos rfl]
              constructor
              · rw [lookupA_insertA_self, lookupA_insertA_self]
                rcases hold : lookupA pid gs.pendingDeltas.PlayersUpdated with _ | d0 <;> rfl
              · rw [countKey_insertA_self, countKey_insertA_self]
                omega
      · have hb : player.IsActive = false := Bool.eq_false_iff.mpr hact
        rw [hpm_inactive hl hb, recordOf_inactive hl hb]
        exact ⟨rfl, le_max_left _ _⟩

/-- Effect of one `handlePlayerMove` on any player's score: unchanged, or —
for the mover only — incremented by exactly one together with exactly one
recorded collectible removal. -/
lemma hpm_score_effect (gs : GameState) (pid dir qid : String) (q : Player)
    (hq : lookupA qid gs.Players = some q) :
    ∃ q', lookupA qid (handlePlayerMove gs pid dir).Players = some q' ∧
      q.Score ≤ q'.Score ∧
      (q'.Score = q.Score ∨
       (qid = pid ∧ q'.Score = q.Score + 1 ∧
        ∃ k, (handlePlayerMove gs pid dir).pendingDeltas.ItemsRemoved =
          gs.pendingDeltas.ItemsRemoved ++ [k])) := by
  by_cases hgo : gs.GameOver = true
  · rw [hpm_gameOver hgo]
    exact ⟨q, hq, le_refl _, Or.inl rfl⟩
  · have hgof : gs.GameOver = false := Bool.eq_false_iff.mpr hgo
    rcases hl : lookupA pid gs.Players with _ | player
    · rw [hpm_unknown hl]
      exact ⟨q, hq, le_refl _, Or.inl rfl⟩
    · by_cases hact : player.IsActive = true
      · rcases hs : stepPos player.Pos dir with _ | newPos
        · rw [hpm_invalidDir hl hact hs]
          exact ⟨q, hq, le_refl _, Or.inl rfl⟩
        · by_cases hmv : player.Pos = newPos
          · rw [hpm_unmoved hgof hl hact hs hmv]
            rcases collectPhase_effects gs pid player newPos with
              ⟨heq, _⟩ | ⟨hP, hI, hIR, hPU, hSome⟩
            · rw [heq]
              exact ⟨q, hq, le_refl _, Or.inl rfl⟩
            · by_cases hqp : qid = pid
              · subst hqp
                have hqq : q = player := by
                  rw [hq] at hl
                  exact Option.some.inj hl
                refine ⟨{ player with Score := player.Score + 1 }, ?_, ?_, ?_⟩
                · rw [hP, lookupA_insertA_self]
                · rw [hqq]
                  show player.Score ≤ player.Score + 1
                  omega
                · right
                  exact ⟨rfl, by rw [hqq], ⟨posKey newPos, hIR⟩⟩
              · refine ⟨q, ?_, le_refl _, Or.inl rfl⟩
                rw [hP, lookupA_insertA_ne _ _ hqp]
                exact hq
          · rw [hpm_moved hgof hl hact hs hmv]
            rcases collectPhase_effects (applyMovedUpdate gs pid
                { player with Pos := newPos } newPos) pid
                { player with Pos := newPos } newPos with
              ⟨heq, _⟩ | ⟨hP, hI, hIR, hPU, hSome⟩
            · rw [heq]
              by_cases hqp : qid = pid
              · subst hqp
                have hqq : q = player := by
                  rw [hq] at hl
                  exact Option.some.inj hl
                refine ⟨{ player with Pos := newPos }, ?_, ?_, ?_⟩
                · rw [applyMovedUpdate_Players, lookupA_insertA_self]
                · rw [hqq]
                · left
                  rw [hqq]
              · refine ⟨q, ?_, le_refl _, Or.inl rfl⟩
                rw [applyMovedUpdate_Players, lookupA_insertA_ne _ _ hqp]
                exact hq
            · by_cases hqp : qid = pid
              · subst hqp
                have hqq : q = player := by
                  rw [hq] at hl
                  exact Option.some.inj hl
                refine ⟨{ player with Pos := newPos, Score := player.Score + 1 }, ?_, ?_, ?_⟩
                · rw [hP, applyMovedUpdate_Players, lookupA_insertA_self]
                · rw [hqq]
                  show player.Score ≤ player.Score + 1
                  omega
                · right
                  refine ⟨rfl, by rw [hqq], ⟨posKey newPos, ?_⟩⟩
                  rw [hIR, applyMovedUpdate_ItemsRemoved]
              · refine ⟨q, ?_, le_refl _, Or.inl rfl⟩
                rw [hP, lookupA_insertA_ne _ _ hqp, applyMovedUpdate_Players,
                    lookupA_insertA_ne _ _ hqp]
                exact hq
      · have hb : player.IsActive = false := Bool.eq_false_iff.mpr hact
        rw [hpm_inactive hl hb]
        exact ⟨q, hq, le_refl _, Or.inl rfl⟩

/-! ## Helper: single-step preservation of on-board positions -/

lemma hpm_inb {gs : GameState} (pid dir : String)
    (h : ∀ e ∈ gs.Players, onBoard e.2.Pos) :
    ∀ e ∈ (handlePlayerMove gs pid dir).Players, onBoard e.2.Pos := by
  by_cases hgo : gs.GameOver = true
  · rw [hpm_gameOver hgo]
    exact h
  · have hgof : gs.GameOver = false := Bool.eq_false_iff.mpr hgo
    rcases hl : lookupA pid gs.Players with _ | player
    · rw [hpm_unknown hl]
      exact h
    · have hmemP : (pid, player) ∈ gs.Players := lookupA_some_mem hl
      by_cases hact : player.IsActive = true
      · rcases hs : stepPos player.Pos dir with _ | newPos
        · rw [hpm_invalidDir hl hact hs]
          exact h
        · have hbP : onBoard newPos := stepPos_onBoard (h _ hmemP) hs
          by_cases hmv : player.Pos = newPos
          · rw [hpm_unmoved hgof hl hact hs hmv]
            rcases collectPhase_effects gs pid player newPos with
              ⟨heq, _⟩ | ⟨hP, _, _, _, _⟩
            · rw [heq]
              exact h
            · rw [hP]
              intro e he
              rcases mem_insertA he with rfl | he
              · show onBoard player.Pos
                exact h _ hmemP
              · exact h e he
          · rw [hpm_moved hgof hl hact hs hmv]
            rcases collectPhase_effects (applyMovedUpdate gs pid
                { player with Pos := newPos } newPos) pid
                { player with Pos := newPos } newPos with
              ⟨heq, _⟩ | ⟨hP, _, _, _, _⟩
            · rw [heq, applyMovedUpdate_Players]
              intro e he
              rcases mem_insertA he with rfl | he
              · exact hbP
              · exact h e he
            · rw [hP, applyMovedUpdate_Players]
              intro e he
              rcases mem_insertA he with rfl | he
              · exact hbP
              · rcases mem_insertA he with rfl | he
                · exact hbP
                · exact h e he
      · have hb : player.IsActive = false := Bool.eq_false_iff.mpr hact
        rw [hpm_inactive hl hb]
        exact h

/-! ## The claims -/

/-- C1: in every reachable World State — a state produced by `initializeItems`
and closed under `addPlayer`, `removePlayer`, `handlePlayerMove` (and the
reset path and broadcast tick) — the game-over flag is true exactly when the
collectible map is empty. -/
theorem C1_gameOver_iff_no_items (gs : GameState) (h : Reachable gs) :
    gs.GameOver = true ↔ gs.Items = [] :=
  (reachable_WF h).c1

theorem C1_witness : gsInit.GameOver = true ↔ gsInit.Items = [] :=
  C1_gameOver_iff_no_items gsInit (Reachable.init candsInit gsInit (by decide) rfl)

/-- C2: when `handlePlayerMove` removes the last collectible it sets the
game-over flag, the winner list contains exactly the ids of the live entities
of maximal score (all ties included, for every enumeration order of the
player map, which is arbitrary here since the association-list order is
arbitrary), the winner designation is recorded (as the formatted winner list)
when some winner exists, it is left untouched when no live entity exists, and
the game-status delta is recorded. Scores are assumed nonnegative, as they
are in every reachable state. -/
theorem C2_last_collect_winners (gs gs' : GameState) (pid dir : String)
    (player : Player) (newPos : Point)
    (hgo : gs.GameOver = false)
    (hl : lookupA pid gs.Players = some player)
    (hact : player.IsActive = true)
    (hs : stepPos player.Pos dir = some newPos)
    (hit : (lookupA (posKey newPos) gs.Items).isSome = true)
    (hlast : eraseA (posKey newPos) gs.Items = [])
    (hnn : ∀ q ∈ gs.Players, 0 ≤ q.2.Score)
    (hgs' : gs' = handlePlayerMove gs pid dir) :
    gs'.GameOver = true ∧
    (∀ qid, qid ∈ computeWinners gs'.Players ↔
       ∃ q ∈ gs'.Players, q.2.IsActive = true ∧ q.2.ID = qid ∧
         ∀ r ∈ gs'.Players, r.2.IsActive = true → r.2.Score ≤ q.2.Score) ∧
    (computeWinners gs'.Players ≠ [] →
       gs'.WinnerID = formatWinners (computeWinners gs'.Players)) ∧
    ((∀ q ∈ gs'.Players, q.2.IsActive = false) → gs'.WinnerID = gs.WinnerID) ∧
    gs'.pendingDeltas.GameStatus =
      some { GameOver := true, WinnerID := gs'.WinnerID } := by
  subst hgs'
  obtain ⟨it, hitem⟩ := Option.isSome_iff_exists.mp hit
  by_cases hmv : player.Pos = newPos
  · rw [hpm_unmoved hgo hl hact hs hmv]
    rw [collectPhase_some hitem]
    rw [if_pos (by rw [collectedState_Items, hlast]; rfl)]
    have hnn2 : ∀ q ∈ (collectedState gs pid player newPos).Players, 0 ≤ q.2.Score := by
      rw [collectedState_Players]
      intro q hq
      rcases mem_insertA hq with rfl | hq
      · show 0 ≤ player.Score + 1
        have h0 : 0 ≤ player.Score := hnn _ (lookupA_some_mem hl)
        omega
      · exact hnn q hq
    refine ⟨gameOverPhase_GameOver _, ?_, ?_, ?_, gameOverPhase_GameStatus _⟩
    · rw [gameOverPhase_Players]
      exact fun qid => computeWinners_mem _ hnn2 qid
    · rw [gameOverPhase_Players]
      exact gameOverPhase_WinnerID_pos _
    · rw [gameOverPhase_Players]
      intro hna
      rw [gameOverPhase_WinnerID_neg _ (computeWinners_no_active _ hna),
          collectedState_WinnerID]
  · rw [hpm_moved hgo hl hact hs hmv]
    have hitem2 : lookupA (posKey newPos)
        (applyMovedUpdate gs pid { player with Pos := newPos } newPos).Items
        = some it := by
      rw [applyMovedUpdate_Items]
      exact hitem
    rw [collectPhase_some hitem2]
    rw [if_pos (by rw [collectedState_Items, applyMovedUpdate_Items, hlast]; rfl)]
    have hnn2 : ∀ q ∈ (collectedState
        (applyMovedUpdate gs pid { player with Pos := newPos } newPos) pid
        { player with Pos := newPos } newPos).Players, 0 ≤ q.2.Score := by
      rw [collectedState_Players, applyMovedUpdate_Players]
      intro q hq
      rcases mem_insertA hq with rfl | hq
      · show 0 ≤ player.Score + 1
        have h0 : 0 ≤ player.Score := hnn _ (lookupA_some_mem hl)
        omega
      · rcases mem_insertA hq with rfl | hq
        · show 0 ≤ player.Score
          exact hnn _ (lookupA_some_mem hl)
        · exact hnn q hq
    refine ⟨gameOverPhase_GameOver _, ?_, ?_, ?_, gameOverPhase_GameStatus _⟩
    · rw [gameOverPhase_Players]
      exact fun qid => computeWinners_mem _ hnn2 qid
    · rw [gameOverPhase_Players]
      exact gameOverPhase_WinnerID_pos _
    · rw [gameOverPhase_Players]
      intro hna
      rw [gameOverPhase_WinnerID_neg _ (computeWinners_no_active _ hna),
          collectedState_WinnerID, applyMovedUpdate_WinnerID]

theorem C2_witness :
    (handlePlayerMove gA "p1" "right").GameOver = true ∧
    (handlePlayerMove gA "p1" "right").pendingDeltas.GameStatus =
      some { GameOver := true,
             WinnerID := (handlePlayerMove gA "p1" "right").WinnerID } :=
  have h := C2_last_collect_winners gA (handlePlayerMove gA "p1" "right")
    "p1" "right" pA { x := 2, y := 1 } (by decide) (by decide) (by decide)
    (by decide) (by decide) (by decide) (by decide) rfl
  ⟨h.1, h.2.2.2.2⟩

/-- C3: from any state whose live entities all stand on the board, every
sequence of `ApplyMove` operations keeps every entity on the board; and a
spawn position chosen by `addPlayer` from in-range random draws is on the
board. -/
theorem C3_positions_stay_on_board :
    (∀ (gs : GameState) (moves : List (String × String)),
       (∀ e ∈ gs.Players, onBoard e.2.Pos) →
       ∀ e ∈ (applyMoves gs moves).Players, onBoard e.2.Pos) ∧
    (∀ (gs : GameState) (id : String) (cands : List Point) (gs' : GameState)
       (p : Player), (∀ c ∈ cands, onBoard c) →
       addPlayer gs id cands = some (gs', p) → onBoard p.Pos) := by
  constructor
  · intro gs moves
    induction moves generalizing gs with
    | nil => exact fun h => h
    | cons m t ih =>
      intro h
      show ∀ e ∈ (applyMoves (handlePlayerMove gs m.1 m.2) t).Players, onBoard e.2.Pos
      exact ih _ (hpm_inb m.1 m.2 h)
  · intro gs id cands gs' p hc h
    obtain ⟨startPos, rest, hp, hpl, _⟩ := addPlayer_shape h
    rw [hpl]
    exact hc startPos (pickFree_spec hp).1

theorem C3_witness :
    (∀ e ∈ (applyMoves gA [("p1", "right")]).Players, onBoard e.2.Pos) ∧
    onBoard addedPair.2.Pos :=
  ⟨C3_positions_stay_on_board.1 gA [("p1", "right")] (by decide),
   C3_positions_stay_on_board.2 gsInit "p1" spawnCands addedPair.1 addedPair.2
     (by decide) rfl⟩

/-- C4: `removePlayer` is a no-op for an unknown id; for a known id it
returns the deactivated record (liveness false — the record whose mailbox
`close(player.sendChan)` terminates), deletes the id from the live map
(leaving everyone else), appends the id to the entity-removal delta, discards
any pending entity-update delta for that id (leaving other entities' pending
entries), and touches nothing else. -/
theorem C4_removePlayer_spec (gs : GameState) (id : String) :
    (lookupA id gs.Players = none → removePlayer gs id = (gs, none)) ∧
    (∀ p, lookupA id gs.Players = some p →
      (removePlayer gs id).2 = some { p with IsActive := false } ∧
      lookupA id (removePlayer gs id).1.Players = none ∧
      (∀ k, k ≠ id →
        lookupA k (removePlayer gs id).1.Players = lookupA k gs.Players) ∧
      (removePlayer gs id).1.pendingDeltas.PlayersRemoved =
        gs.pendingDeltas.PlayersRemoved ++ [id] ∧
      lookupA id (removePlayer gs id).1.pendingDeltas.PlayersUpdated = none ∧
      (∀ k, k ≠ id →
        lookupA k (removePlayer gs id).1.pendingDeltas.PlayersUpdated =
          lookupA k gs.pendingDeltas.PlayersUpdated) ∧
      (removePlayer gs id).1.Items = gs.Items ∧
      (removePlayer gs id).1.GameOver = gs.GameOver ∧
      (removePlayer gs id).1.WinnerID = gs.WinnerID ∧
      (removePlayer gs id).1.pendingDeltas.ItemsAdded =
        gs.pendingDeltas.ItemsAdded ∧
      (removePlayer gs id).1.pendingDeltas.ItemsRemoved =
        gs.pendingDeltas.ItemsRemoved ∧
      (removePlayer gs id).1.pendingDeltas.GameStatus =
        gs.pendingDeltas.GameStatus) := by
  constructor
  · intro hl
    rw [removePlayer, hl]
  · intro p hl
    rw [removePlayer, hl]
    refine ⟨rfl, ?_, ?_, rfl, ?_, ?_, rfl, rfl, rfl, rfl, rfl, rfl⟩
    · show lookupA id (eraseA id gs.Players) = none
      exact lookupA_eraseA_self id gs.Players
    · intro k hk
      show lookupA k (eraseA id gs.Players) = lookupA k gs.Players
      exact lookupA_eraseA_ne gs.Players hk
    · show lookupA id (eraseA id gs.pendingDeltas.PlayersUpdated) = none
      exact lookupA_eraseA_self id gs.pendingDeltas.PlayersUpdated
    · intro k hk
      show lookupA k (eraseA id gs.pendingDeltas.PlayersUpdated) =
        lookupA k gs.pendingDeltas.PlayersUpdated
      exact lookupA_eraseA_ne gs.pendingDeltas.PlayersUpdated hk

theorem C4_witness :
    removePlayer gA "zz" = (gA, none) ∧
    (removePlayer gA "p1").2 = some { pA with IsActive := false } ∧
    (removePlayer gA "p1").1.pendingDeltas.PlayersRemoved =
      gA.pendingDeltas.PlayersRemoved ++ ["p1"] :=
  ⟨(C4_removePlayer_spec gA "zz").1 (by decide),
   ((C4_removePlayer_spec gA "p1").2 pA (by decide)).1,
   ((C4_removePlayer_spec gA "p1").2 pA (by decide)).2.2.2.1⟩

/-- C5 counterexample: in a state where a collectible lies under an entity at
the corner, an `ApplyMove` into the wall does change the state — the code
performs the collectible check on the unchanged square, so the claim "no
collectible check performed, state and Change Record exactly as before" is
false as stated for arbitrary states. (The state used here is not reachable:
C10 shows no collectible ever shares a live entity's square.) -/
theorem C5_counterexample : handlePlayerMove gBad "p1" "up" ≠ gBad := by decide

/-- C5 (amended): for an entity at a board edge, an `ApplyMove` in the
direction of that edge leaves the position unchanged; the code does run the
collectible check on the unchanged square, but under the reachable-state
guarantee that no collectible lies under a live entity (here the explicit
hypothesis), the check finds nothing, so the state and the pending Change
Record are exactly as before the call. -/
theorem C5_wall_bump_noop (gs : GameState) (pid dir : String) (player : Player)
    (hl : lookupA pid gs.Players = some player)
    (hs : stepPos player.Pos dir = some player.Pos)
    (hni : lookupA (posKey player.Pos) gs.Items = none) :
    handlePlayerMove gs pid dir = gs := by
  by_cases hgo : gs.GameOver = true
  · exact hpm_gameOver hgo
  · by_cases hact : player.IsActive = true
    · rw [hpm_unmoved (Bool.eq_false_iff.mpr hgo) hl hact hs rfl]
      exact collectPhase_none hni
    · exact hpm_inactive hl (Bool.eq_false_iff.mpr hact)

theorem C5_witness : handlePlayerMove gC "p1" "up" = gC :=
  C5_wall_bump_noop gC "p1" "up" pC (by decide) (by decide) (by decide)

/-- C6: `ApplyMove` leaves the state (and so the pending Change Record)
completely unchanged when the game is over, the id is unknown or not live, or
the direction is not one of up/down/left/right — malformed input is silently
ignored. -/
theorem C6_invalid_move_noop (gs : GameState) (pid dir : String)
    (h : gs.GameOver = true ∨ lookupA pid gs.Players = none ∨
         (∃ player, lookupA pid gs.Players = some player ∧
            player.IsActive = false) ∨
         (dir ≠ "up" ∧ dir ≠ "down" ∧ dir ≠ "left" ∧ dir ≠ "right")) :
    handlePlayerMove gs pid dir = gs := by
  rcases h with h | h | ⟨player, hl, hact⟩ | ⟨h1, h2, h3, h4⟩
  · exact hpm_gameOver h
  · exact hpm_unknown h
  · exact hpm_inactive hl hact
  · rcases hl : lookupA pid gs.Players with _ | player
    · exact hpm_unknown hl
    · by_cases hact : player.IsActive = true
      · exact hpm_invalidDir hl hact (stepPos_invalid h1 h2 h3 h4)
      · exact hpm_inactive hl (Bool.eq_false_iff.mpr hact)

theorem C6_witness : handlePlayerMove gA "p1" "jump" = gA :=
  C6_invalid_move_noop gA "p1" "jump"
    (Or.inr (Or.inr (Or.inr (by decide))))

/-- C7: a broadcast tick whose accumulated Change Record is entirely empty
sends no message to any client and leaves the state unchanged; and because a
flush resets the accumulator to the empty record, a second tick with no
intervening mutations always sends nothing. -/
theorem C7_empty_tick_silent (gs : GameState) :
    ((gs.pendingDeltas.PlayersUpdated = [] ∧
      gs.pendingDeltas.PlayersRemoved = [] ∧
      gs.pendingDeltas.ItemsAdded = [] ∧
      gs.pendingDeltas.ItemsRemoved = [] ∧
      gs.pendingDeltas.GameStatus = none) →
      broadcastUpdates gs = (gs, [])) ∧
    broadcastUpdates (broadcastUpdates gs).1 = ((broadcastUpdates gs).1, []) := by
  have hempty : ∀ gs2 : GameState, gs2.pendingDeltas.PlayersUpdated = [] →
      gs2.pendingDeltas.PlayersRemoved = [] → gs2.pendingDeltas.ItemsAdded = [] →
      gs2.pendingDeltas.ItemsRemoved = [] → gs2.pendingDeltas.GameStatus = none →
      broadcastUpdates gs2 = (gs2, []) := by
    intro gs2 h1 h2 h3 h4 h5
    rw [broadcastUpdates, if_pos ⟨by rw [h1]; rfl, by rw [h2]; rfl,
      by rw [h3]; rfl, by rw [h4]; rfl, h5⟩]
  constructor
  · rintro ⟨h1, h2, h3, h4, h5⟩
    exact hempty gs h1 h2 h3 h4 h5
  · by_cases hc : (gs.pendingDeltas.PlayersUpdated.length = 0 ∧
        gs.pendingDeltas.PlayersRemoved.length = 0 ∧
        gs.pendingDeltas.ItemsAdded.length = 0 ∧
        gs.pendingDeltas.ItemsRemoved.length = 0 ∧
        gs.pendingDeltas.GameStatus = none)
    · have hfst : broadcastUpdates gs = (gs, []) := by
        rw [broadcastUpdates, if_pos hc]
      rw [hfst]
      show broadcastUpdates gs = (gs, [])
      exact hfst
    · have hfst : (broadcastUpdates gs).1 = resetPendingDeltas gs := by
        rw [broadcastUpdates, if_neg hc]
      rw [hfst]
      exact hempty (resetPendingDeltas gs) rfl rfl rfl rfl rfl

theorem C7_witness : broadcastUpdates gA = (gA, []) :=
  (C7_empty_tick_silent gA).1 ⟨rfl, rfl, rfl, rfl, rfl⟩

/-- C8: within one publish window, for any sequence of `ApplyMove` calls by
one entity, the pending Change Record keeps at most one entry for that entity
and that entry is exactly the last-write-wins-per-field coalescing
(`specLWWList`, modelled from the spec) of the per-move recorded changes
(`recordsOf`): the position field is the last recorded position change and
the score field is the last recorded score change. -/
theorem C8_updates_coalesce (gs : GameState) (pid : String) (moves : List String)
    (h1 : countKey pid gs.pendingDeltas.PlayersUpdated ≤ 1) :
    countKey pid (applyMovesFor gs pid moves).pendingDeltas.PlayersUpdated ≤ 1 ∧
    lookupA pid (applyMovesFor gs pid moves).pendingDeltas.PlayersUpdated =
      specLWWList pid (lookupA pid gs.pendingDeltas.PlayersUpdated)
        (recordsOf gs pid moves) := by
  induction moves generalizing gs with
  | nil => exact ⟨h1, rfl⟩
  | cons d ds ih =>
    obtain ⟨hstep1, hstep2⟩ := hpm_delta_step gs pid d
    have hcount : countKey pid
        (handlePlayerMove gs pid d).pendingDeltas.PlayersUpdated ≤ 1 := by
      omega
    obtain ⟨ih1, ih2⟩ := ih (handlePlayerMove gs pid d) hcount
    refine ⟨ih1, ?_⟩
    show lookupA pid
        (applyMovesFor (handlePlayerMove gs pid d) pid ds).pendingDeltas.PlayersUpdated =
      specLWWList pid
        (specLWW pid (lookupA pid gs.pendingDeltas.PlayersUpdated)
          (recordOf gs pid d))
        (recordsOf (handlePlayerMove gs pid d) pid ds)
    rw [ih2, hstep1]

theorem C8_witness :
    countKey "p1" (applyMovesFor gA "p1" ["right"]).pendingDeltas.PlayersUpdated ≤ 1 ∧
    lookupA "p1" (applyMovesFor gA "p1" ["right"]).pendingDeltas.PlayersUpdated =
      specLWWList "p1" (lookupA "p1" gA.pendingDeltas.PlayersUpdated)
        (recordsOf gA "p1" ["right"]) :=
  C8_updates_coalesce gA "p1" ["right"] (by decide)

/-- C9: within one episode no operation decreases a live entity's score —
`ApplyMove` changes a score only by incrementing the mover's by exactly one
together with exactly one recorded collectible removal; `addPlayer` and
`removePlayer` leave other entities' records untouched; and only
`initializeItems` (Initialize/Reset) sets scores to zero (active entities
zeroed, inactive records kept). -/
theorem C9_scores_monotone :
    (∀ (gs : GameState) (pid dir qid : String) (q : Player),
       lookupA qid gs.Players = some q →
       ∃ q', lookupA qid (handlePlayerMove gs pid dir).Players = some q' ∧
         q.Score ≤ q'.Score ∧
         (q'.Score = q.Score ∨
          (qid = pid ∧ q'.Score = q.Score + 1 ∧
           ∃ k, (handlePlayerMove gs pid dir).pendingDeltas.ItemsRemoved =
             gs.pendingDeltas.ItemsRemoved ++ [k]))) ∧
    (∀ (gs : GameState) (id : String) (cands : List Point) (gs' : GameState)
       (p : Player) (qid : String), addPlayer gs id cands = some (gs', p) →
       qid ≠ id → lookupA qid gs'.Players = lookupA qid gs.Players) ∧
    (∀ (gs : GameState) (id qid : String), qid ≠ id →
       lookupA qid (removePlayer gs id).1.Players = lookupA qid gs.Players) ∧
    (∀ (gs : GameState) (cands : List Point) (gs' : GameState) (qid : String)
       (q : Player), initializeItems gs cands = some gs' →
       lookupA qid gs.Players = some q →
       lookupA qid gs'.Players =
         some (if q.IsActive = true then { q with Score := 0 } else q)) := by
  refine ⟨hpm_score_effect, ?_, ?_, ?_⟩
  · intro gs id cands gs' p qid h hne
    obtain ⟨startPos, rest, hp, hpl, hgs⟩ := addPlayer_shape h
    subst hgs
    show lookupA qid (insertA id p gs.Players) = lookupA qid gs.Players
    exact lookupA_insertA_ne p gs.Players hne
  · intro gs id qid hne
    rw [removePlayer]
    rcases hl : lookupA id gs.Players with _ | p
    · rfl
    · show lookupA qid (eraseA id gs.Players) = lookupA qid gs.Players
      exact lookupA_eraseA_ne gs.Players hne
  · intro gs cands gs' qid q h hq
    obtain ⟨cur, lst, hp, hP, _, _⟩ := initializeItems_shape h
    rw [hP, lookupA_map_resetEntry, hq]
    rfl

theorem C9_witness :
    lookupA "zz" (removePlayer gA "p1").1.Players = lookupA "zz" gA.Players :=
  C9_scores_monotone.2.2.1 gA "p1" "zz" (by decide)

/-- C10: in every reachable World State no collectible occupies the same
position as any live entity (`initializeItems` rejects positions of players,
`addPlayer` rejects spawn positions holding a collectible, and
`handlePlayerMove` deletes a collectible the moment an entity arrives on it);
consequently a wall-bumped (unmoved) entity never collects anything even
though the code re-checks its own square, so such a move leaves the state
entirely unchanged. -/
theorem C10_no_item_under_player (gs : GameState) (h : Reachable gs) :
    (∀ e ∈ gs.Items, ∀ q ∈ gs.Players, q.2.IsActive = true →
       e.2.Pos ≠ q.2.Pos) ∧
    (∀ (pid dir : String) (player : Player),
       lookupA pid gs.Players = some player →
       stepPos player.Pos dir = some player.Pos →
       handlePlayerMove gs pid dir = gs) := by
  have hwf := reachable_WF h
  refine ⟨hwf.noOver, ?_⟩
  intro pid dir player hl hs
  by_cases hgo : gs.GameOver = true
  · exact hpm_gameOver hgo
  · by_cases hact : player.IsActive = true
    · rw [hpm_unmoved (Bool.eq_false_iff.mpr hgo) hl hact hs rfl]
      refine collectPhase_none ?_
      rcases hitem : lookupA (posKey player.Pos) gs.Items with _ | it
      · rfl
      · exfalso
        have hmem := lookupA_some_mem hitem
        have hk2 : posKey player.Pos = posKey it.Pos := hwf.keyPos _ hmem
        have hpe : it.Pos = player.Pos := (posKey_inj hk2).symm
        exact hwf.noOver _ hmem _ (lookupA_some_mem hl) hact hpe
    · exact hpm_inactive hl (Bool.eq_false_iff.mpr hact)

theorem C10_witness : handlePlayerMove addedPair.1 "p1" "up" = addedPair.1 :=
  (C10_no_item_under_player addedPair.1
      (Reachable.add gsInit "p1" spawnCands addedPair.1 addedPair.2
        (Reachable.init candsInit gsInit (by decide) rfl) (by decide) rfl)).2
    "p1" "up" addedPair.2 (by decide) (by decide)

end JogoGo
